import Mathlib

/-!
# ArticleLicensing (`layout/ext/article_licensing.jsx`)

A shallow embedding of the `ArticleLicensing` component and of the props mapper of
`ArticleLicensing.Cacheable`, followed by theorems about them.

Modelling conventions.

* A JavaScript string is the list of its UTF-16 code units (`JSString`); `utf16` turns a Lean
  string literal into that form.
* `undefined`/`null` fields are `Option`s; the truthiness tests of the source are kept
  (`truthy`): an empty string is falsy, objects and arrays (also empty ones) are truthy.
* An object is the list of its own data properties in creation order (`JSObject`);
  `Object.keys` follows the ECMAScript ordering of own property keys: array-index names in
  ascending numeric order first, then the other names in creation order. A write of the new
  name `__proto__` runs the setter of `Object.prototype` and creates no own property. The
  component reads `o[name]` only at names taken from `Object.keys(o)`, so a read is the read of
  an own property and the prototype of an object is not kept.
* A value of `page.date` or `page.updated` is any JavaScript value (`DateValue`): a date object
  or a primitive, with the truthiness of the language.
* Thrown exceptions are `Except` errors: `TypeError`/`URIError` of the language itself, or
  whatever an injected helper raises.
* `decodeURI` follows the `Decode` abstract operation of ECMA-262.
* The markup tree of JSX is `VNode`; `null`/`undefined` children and array children are kept as
  they are written in the source and `VNode.flatten` gives the sequence of nodes they stand for.
-/

namespace ArticleLicensing

/-! ## Strings -/

/-- A JavaScript string: the sequence of its UTF-16 code units. -/
abbrev JSString := List Nat

/-- UTF-16 encoding of one code point (ECMA-262 `UTF16EncodeCodePoint`). -/
def UTF16EncodeCodePoint (cp : Nat) : JSString :=
  if cp ≤ 0xFFFF then [cp]
  else [(cp - 0x10000) / 0x400 + 0xD800, (cp - 0x10000) % 0x400 + 0xDC00]

/-- The JavaScript string written as the given literal. -/
def utf16 (s : String) : JSString :=
  (s.toList.map fun c => UTF16EncodeCodePoint c.toNat).flatten

/-- Truthiness of a string value: only the empty string is falsy. -/
def truthy (s : JSString) : Bool := !s.isEmpty

/-- Truthiness of an optional string: `undefined` and the empty string are falsy. -/
def truthy? : Option JSString → Bool
  | none => false
  | some s => truthy s

/-- The call `s.substr(start)` of `String.prototype.substr` with the length left out. -/
def substr (s : JSString) (start : Int) : JSString :=
  let size : Int := s.length
  let intStart : Int := if start < 0 then max (size + start) 0 else min start size
  s.drop intStart.toNat

/-- The call `s.slice(start, stop)` of `String.prototype.slice`. -/
def slice (s : JSString) (start stop : Int) : JSString :=
  let len : Int := s.length
  let first : Int := if start < 0 then max (len + start) 0 else min start len
  let final : Int := if stop < 0 then max (len + stop) 0 else min stop len
  (s.drop first.toNat).take (max (final - first) 0).toNat

/-! ## Exceptions -/

/-- The exceptions the language itself throws in this component. -/
inductive BuiltinError where
  | TypeError
  | URIError
  deriving DecidableEq, Repr

/-- What a call may throw: a built-in exception or whatever a helper raised. -/
inductive Thrown (ε : Type) where
  | builtin (b : BuiltinError)
  | helper (e : ε)
  deriving DecidableEq, Repr

/-! ## `decodeURI` (ECMA-262, `Decode`) -/

/-- Value of one hexadecimal digit given as a code unit. -/
def hexValue (c : Nat) : Option Nat :=
  if 48 ≤ c ∧ c ≤ 57 then some (c - 48)
  else if 65 ≤ c ∧ c ≤ 70 then some (c - 55)
  else if 97 ≤ c ∧ c ≤ 102 then some (c - 87)
  else none

/-- The octet written by two hexadecimal digits (`ParseHexOctet`). -/
def ParseHexOctet (h1 h2 : Nat) : Option Nat :=
  match hexValue h1, hexValue h2 with
  | some a, some b => some (16 * a + b)
  | _, _ => none

/-- Number of leading 1 bits of an octet. -/
def leadingOnes (B : Nat) : Nat :=
  if B < 0x80 then 0
  else if B < 0xC0 then 1
  else if B < 0xE0 then 2
  else if B < 0xF0 then 3
  else if B < 0xF8 then 4
  else if B < 0xFC then 5
  else if B < 0xFE then 6
  else if B < 0xFF then 7
  else 8

/-- Whether an octet is a UTF-8 continuation byte. -/
def isContinuation (b : Nat) : Bool := 0x80 ≤ b && b ≤ 0xBF

/-- The code point of a valid UTF-8 encoding of two to four octets: continuation bytes in
range, shortest form, no surrogate, at most U+10FFFF. -/
def utf8Decode : List Nat → Option Nat
  | [b0, b1] =>
    let v := (b0 % 0x20) * 0x40 + b1 % 0x40
    if isContinuation b1 && 0x80 ≤ v then some v else none
  | [b0, b1, b2] =>
    let v := (b0 % 0x10) * 0x1000 + (b1 % 0x40) * 0x40 + b2 % 0x40
    if isContinuation b1 && isContinuation b2 && 0x800 ≤ v && !(0xD800 ≤ v && v ≤ 0xDFFF)
    then some v else none
  | [b0, b1, b2, b3] =>
    let v := (b0 % 0x08) * 0x40000 + (b1 % 0x40) * 0x1000 + (b2 % 0x40) * 0x40 + b3 % 0x40
    if isContinuation b1 && isContinuation b2 && isContinuation b3 && 0x10000 ≤ v
      && v ≤ 0x10FFFF
    then some v else none
  | _ => none

/-- The `j` escapes `%XY` that must follow the first octet of a multi-byte sequence. -/
def continuationOctets : Nat → JSString → Option (List Nat)
  | 0, _ => some []
  | j + 1, p :: a :: b :: r =>
    if p ≠ 37 then none
    else
      match ParseHexOctet a b with
      | none => none
      | some B => (continuationOctets j r).map (B :: ·)
  | _ + 1, _ => none

/-- One escape sequence at the head of `s` (which starts with `%`): the string that replaces
it and the number of code units it takes up, or `none` where `Decode` throws. -/
def decodeEscape (preserveEscapeSet : JSString) (s : JSString) : Option (JSString × Nat) :=
  match s with
  | _ :: h1 :: h2 :: r =>
    match ParseHexOctet h1 h2 with
    | none => none
    | some B =>
      let n := leadingOnes B
      if n = 0 then
        some (if B ∈ preserveEscapeSet then [37, h1, h2] else [B], 3)
      else if n = 1 ∨ n > 4 then none
      else
        match continuationOctets (n - 1) r with
        | none => none
        | some octets =>
          match utf8Decode (B :: octets) with
          | none => none
          | some V => some (UTF16EncodeCodePoint V, 3 * n)
  | _ => none

/-- The loop of `Decode`; `skip` counts the code units the current escape sequence still
covers. -/
def DecodeLoop (preserveEscapeSet : JSString) : Nat → JSString → Except BuiltinError JSString
  | _, [] => .ok []
  | skip + 1, _ :: rest => DecodeLoop preserveEscapeSet skip rest
  | 0, c :: rest =>
    if c ≠ 37 then (DecodeLoop preserveEscapeSet 0 rest).map (c :: ·)
    else
      match decodeEscape preserveEscapeSet (c :: rest) with
      | none => .error .URIError
      | some (S, used) => (DecodeLoop preserveEscapeSet (used - 1) rest).map (S ++ ·)

/-- The built-in `decodeURI`: escapes of the reserved characters and of `#` are kept. -/
def decodeURI (uri : JSString) : Except BuiltinError JSString :=
  DecodeLoop (utf16 ";/?:@&=+$,#") 0 uri

/-! ## Objects -/

/-- An ordinary object: its own data properties, in the order of their creation. -/
abbrev JSObject (α : Type) := List (JSString × α)

/-- The number a string of decimal digits writes. -/
def digitsValue (k : JSString) : Nat :=
  k.foldl (fun acc c => 10 * acc + (c - 48)) 0

/-- A property name is an array index when it is the canonical decimal form of an integer from
`0` to `2^32 - 2`. -/
def isArrayIndex (k : JSString) : Bool :=
  !k.isEmpty && k.all (fun c => 48 ≤ c && c ≤ 57) && (k == [48] || k.head? != some 48)
    && digitsValue k < 2 ^ 32 - 1

/-- Own property keys in the order of `OrdinaryOwnPropertyKeys`: array indices ascending, then
the other names in creation order. -/
def ownPropertyKeys {α : Type} (o : JSObject α) : List JSString :=
  ((o.map Prod.fst).filter isArrayIndex).insertionSort (fun a b => digitsValue a ≤ digitsValue b)
    ++ (o.map Prod.fst).filter (fun k => !isArrayIndex k)

/-- The built-in `Object.keys` on an object whose own properties are all enumerable. -/
def Object.keys {α : Type} (o : JSObject α) : List JSString := ownPropertyKeys o

/-- The own property `name` of `o`, `undefined` when there is none: the read `o[name]` at a
name taken from `Object.keys(o)`. -/
def JSObject.get {α : Type} (o : JSObject α) (name : JSString) : Option α :=
  o.lookup name

/-- The own properties after the write `o[name] = v` of an object value `v` on an ordinary
object: an existing own property keeps its place; the new name `__proto__` reaches the setter of
`Object.prototype`, which changes the prototype and creates no own property; any other new
name is created last. -/
def JSObject.set {α : Type} (o : JSObject α) (name : JSString) (v : α) : JSObject α :=
  if name ∈ o.map Prod.fst then o.map (fun e => if e.1 = name then (name, v) else e)
  else if name = utf16 "__proto__" then o
  else o ++ [(name, v)]

/-! ## Data model -/

/-- The `icon` of a license: one class string or a sequence of class strings. -/
inductive Icon where
  | single (cls : JSString)
  | many (classes : List JSString)
  deriving DecidableEq, Repr

/-- A license entry `{url, icon?, text?}`. -/
structure LicenseEntry where
  url : JSString
  icon : Option Icon
  text : Option JSString
  deriving DecidableEq, Repr

/-- A value of `config.article.licenses`: a plain string or a license entry. -/
inductive LicenseConfig where
  | plain (url : JSString)
  | entry (e : LicenseEntry)
  deriving DecidableEq, Repr

/-- The property `license.icon`; a string has no such property. -/
def LicenseConfig.icon : LicenseConfig → Option Icon
  | .plain _ => none
  | .entry e => e.icon

/-- The property `license.text`; a string has no such property. -/
def LicenseConfig.text : LicenseConfig → Option JSString
  | .plain _ => none
  | .entry e => e.text

/-- The argument of `url_for`: the license when it is a string, else `license.url`. -/
def LicenseConfig.urlArgument : LicenseConfig → JSString
  | .plain s => s
  | .entry e => e.url

/-- Truthiness of an `icon` value: `undefined` and the empty string are falsy, arrays are
truthy. -/
def Icon.truthy : Option Icon → Bool
  | none => false
  | some (.single c) => ArticleLicensing.truthy c
  | some (.many _) => true

/-- The built-in `Array.isArray` on an `icon` value. -/
def Array.isArray : Option Icon → Bool
  | some (.many _) => true
  | _ => false

/-- The props of `ArticleLicensing`. -/
structure RenderProps where
  title : Option JSString
  link : JSString
  author : Option JSString
  authorTitle : Option JSString
  createdAt : Option JSString
  createdTitle : Option JSString
  updatedAt : Option JSString
  updatedTitle : Option JSString
  licenses : Option (JSObject LicenseEntry)
  licensedTitle : Option JSString
  deriving DecidableEq, Repr

/-- The `config.article` object. -/
structure Article where
  licenses : Option (JSObject LicenseConfig)
  deriving DecidableEq, Repr

/-- The site configuration. -/
structure Config where
  article : Option Article
  author : Option JSString
  deriving DecidableEq, Repr

/-- A value of `page.date` or `page.updated` other than `undefined` and `null`: a date object
of the type `Date` (a moment instance in Hexo) or a primitive. A number is an integer or `NaN`,
which covers the falsy numbers. -/
inductive DateValue (Date : Type) where
  | object (d : Date)
  | string (s : JSString)
  | number (n : Int)
  | NaN
  | boolean (b : Bool)

/-- Truthiness of a date value: objects are truthy; the empty string, `0`, `NaN` and `false`
are falsy. -/
def DateValue.truthy {Date : Type} : DateValue Date → Bool
  | .object _ => true
  | .string s => ArticleLicensing.truthy s
  | .number n => n != 0
  | .NaN => false
  | .boolean b => b

/-- Truthiness of `page.date` or `page.updated`: `undefined` and `null` are falsy. -/
def DateValue.truthy? {Date : Type} : Option (DateValue Date) → Bool
  | none => false
  | some v => v.truthy

/-- The page. -/
structure Page (Date : Type) where
  title : Option JSString
  permalink : Option JSString
  author : Option JSString
  date : Option (DateValue Date)
  updated : Option (DateValue Date)

/-- The injected helper object of the spec: `url_for`, `date` and `__`; each helper may raise
an exception of type `ε`. (The JSDoc example of `Cacheable` lists `__` and `url_for` only; the
mapper calls `date` as well.) -/
structure Helper (ε : Type) (Date : Type) where
  url_for : JSString → Except ε JSString
  date : DateValue Date → Except ε JSString
  __ : JSString → Except ε JSString

/-! ## Markup -/

/-- A JSX child: `null`, a text, an element with attributes and children, or an array of
children. -/
inductive VNode where
  | null : VNode
  | text : JSString → VNode
  | elem : String → List (String × JSString) → List VNode → VNode
  | arr : List VNode → VNode

/-- A JSX expression child `{v}` for an optional string. -/
def VNode.ofValue : Option JSString → VNode
  | none => .null
  | some s => .text s

mutual
/-- The sequence of nodes a child stands for: `null` gives nothing, arrays are spliced. -/
def VNode.flatten : VNode → List VNode
  | .null => []
  | .text s => [.text s]
  | .elem t a c => [.elem t a c]
  | .arr xs => VNode.flattenList xs
/-- The sequence of nodes a list of children stands for. -/
def VNode.flattenList : List VNode → List VNode
  | [] => []
  | x :: xs => x.flatten ++ VNode.flattenList xs
end

/-- The children of an element as written. -/
def VNode.children : VNode → List VNode
  | .elem _ _ c => c
  | _ => []

/-- The nodes an element contains, arrays spliced and `null` dropped. -/
def VNode.content (v : VNode) : List VNode := VNode.flattenList v.children

/-- The attributes of an element. -/
def VNode.attrs : VNode → List (String × JSString)
  | .elem _ a _ => a
  | _ => []

/-- The value of one attribute of an element. -/
def VNode.attr (v : VNode) (name : String) : Option JSString := v.attrs.lookup name

/-- The `i`-th child of an element as written (`null` when there is none). -/
def VNode.childAt (v : VNode) (i : Nat) : VNode := v.children.getD i .null

mutual
/-- The `title` attributes of the `a` elements of a tree, in document order. -/
def VNode.anchorTitles : VNode → List JSString
  | .null => []
  | .text _ => []
  | .elem t a c =>
    (if t = "a" then (a.lookup "title").toList else []) ++ VNode.anchorTitlesList c
  | .arr xs => VNode.anchorTitlesList xs
/-- The `title` attributes of the `a` elements of a list of trees, in document order. -/
def VNode.anchorTitlesList : List VNode → List JSString
  | [] => []
  | x :: xs => x.anchorTitles ++ VNode.anchorTitlesList xs
end

/-! ## `ArticleLicensing.render` -/

/-- The arrow function `name => <a ...>` mapped over `Object.keys(licenses)`. Reading a
property of `licenses[name]` throws when `licenses` has no such property. -/
def licenseAnchor (licenses : JSObject LicenseEntry) (name : JSString) :
    Except BuiltinError VNode :=
  match licenses.get name with
  | none => .error .TypeError
  | some entry =>
    .ok (.elem "a"
      [("rel", utf16 "noopener"),
       ("target", utf16 "_blank"),
       ("title", name),
       ("class", if Icon.truthy entry.icon && !Array.isArray entry.icon then utf16 "icon"
                 else utf16 ""),
       ("href", entry.url)]
      [(match entry.icon with
        | none => .text name
        | some (.single cls) =>
          if truthy cls then .elem "i" [("className", cls)] [] else .text name
        | some (.many classes) =>
          .arr (classes.map fun i => .arr [.elem "i" [("className", i)] [], .text [0xA0]])),
       .text (if truthy? entry.text then entry.text.getD [] else utf16 "")])

/-- Lines 80-103 of `render`: the licenses item of the meta row. -/
def licensesItem (licenses : Option (JSObject LicenseEntry)) (licensedTitle : Option JSString) :
    Except BuiltinError VNode :=
  match licenses with
  | none => .ok .null
  | some licenses =>
    if (Object.keys licenses).length ≠ 0 then do
      let anchors ← (Object.keys licenses).mapM (licenseAnchor licenses)
      pure (.elem "div" [("class", utf16 "level-item is-narrow")]
        [.elem "div" []
          [.elem "h6" [] [.ofValue licensedTitle],
           .elem "p" [] [.arr anchors]]])
    else .ok .null

/-- The method `render` of `ArticleLicensing`. -/
def render (props : RenderProps) : Except BuiltinError VNode := do
  let licensing ← licensesItem props.licenses props.licensedTitle
  pure (.elem "div" [("class", utf16 "article-licensing box")]
    [.elem "div" [("class", utf16 "licensing-title")]
      [if truthy? props.title then .elem "p" [] [.ofValue props.title] else .null,
       .elem "p" [] [.elem "a" [("href", props.link)] [.text props.link]]],
     .elem "div" [("class", utf16 "licensing-meta level is-mobile")]
      [.elem "div" [("class", utf16 "level-left")]
        [if truthy? props.author then
           .elem "div" [("class", utf16 "level-item is-narrow")]
             [.elem "div" []
               [.elem "h6" [] [.ofValue props.authorTitle],
                .elem "p" [] [.ofValue props.author]]]
         else .null,
         if truthy? props.createdAt then
           .elem "div" [("class", utf16 "level-item is-narrow")]
             [.elem "div" []
               [.elem "h6" [] [.ofValue props.createdTitle],
                .elem "p" [] [.ofValue props.createdAt]]]
         else .null,
         if truthy? props.updatedAt then
           .elem "div" [("class", utf16 "level-item is-narrow")]
             [.elem "div" []
               [.elem "h6" [] [.ofValue props.updatedTitle],
                .elem "p" [] [.ofValue props.updatedAt]]]
         else .null,
         licensing]]])

/-- The `i`-th item of the meta row (`div.level-left`) of a rendered block: author, created,
updated, licenses; `null` where the item is left out. -/
def metaItem (t : VNode) (i : Nat) : VNode := ((t.childAt 1).childAt 0).childAt i

/-- The license anchors of a rendered block: the children of the `p` of the licenses item. -/
def licenseAnchors (t : VNode) : List VNode :=
  VNode.flattenList ((((metaItem t 3).childAt 0).childAt 1).children)

/-! ## The props mapper of `ArticleLicensing.Cacheable` -/

/-- The body of the `forEach` callback: `links[name] = {url, icon, text}`. -/
def Cacheable.addLink {ε Date : Type} (helper : Helper ε Date)
    (licenses : JSObject LicenseConfig) (links : JSObject LicenseEntry) (name : JSString) :
    Except (Thrown ε) (JSObject LicenseEntry) :=
  match licenses.get name with
  | none => .error (.builtin .TypeError)
  | some license =>
    match helper.url_for license.urlArgument with
    | .error e => .error (.helper e)
    | .ok url => .ok (links.set name { url := url, icon := license.icon, text := license.text })

/-- The value `x || y` on optional strings. -/
def orElse (x y : Option JSString) : Option JSString :=
  if truthy? x then x else y

/-- A helper call whose exception propagates unchanged. -/
def call {ε α : Type} (r : Except ε α) : Except (Thrown ε) α :=
  match r with
  | .error e => .error (.helper e)
  | .ok a => .ok a

/-- A built-in call whose exception propagates unchanged. -/
def builtin {ε α : Type} (r : Except BuiltinError α) : Except (Thrown ε) α :=
  match r with
  | .error b => .error (.builtin b)
  | .ok a => .ok a

/-- The conversion `ToString` of an argument that is a string or `undefined`. -/
def toStringValue (v : Option JSString) : JSString :=
  v.getD (utf16 "undefined")

/-- The value `d ? helper.date(d) : null` for `d` one of `page.date`, `page.updated`. -/
def Cacheable.dateOrNull {ε Date : Type} (helper : Helper ε Date)
    (d : Option (DateValue Date)) : Except (Thrown ε) (Option JSString) :=
  match d with
  | some date => if date.truthy then (call (helper.date date)).map some else .ok none
  | none => .ok none

/-- Lines 139-151 of the mapper: the `links` object built from `config.article.licenses`. -/
def Cacheable.links {ε Date : Type} (helper : Helper ε Date) (config : Config) :
    Except (Thrown ε) (JSObject LicenseEntry) :=
  let licenses := (config.article.getD { licenses := none }).licenses
  match licenses with
  | some licenses => (Object.keys licenses).foldlM (Cacheable.addLink helper licenses) []
  | none => .ok []

/-- Lines 152-155 of the mapper: `page.permalink`, cut when it ends with `/index.html`. -/
def Cacheable.permalink {Date : Type} (page : Page Date) : Option JSString :=
  match page.permalink with
  | some permalink =>
    if truthy permalink && substr permalink (-11) == utf16 "/index.html" then
      some (slice permalink 0 (-10))
    else some permalink
  | none => none

/-- The function `props => {...}` given to `cacheComponent`. -/
def Cacheable.props {ε Date : Type} (helper : Helper ε Date) (config : Config)
    (page : Page Date) : Except (Thrown ε) RenderProps := do
  let links ← Cacheable.links helper config
  let permalink := Cacheable.permalink page
  let link ← builtin (decodeURI (toStringValue permalink))
  let authorTitle ← call (helper.__ (utf16 "article.licensing.author"))
  let createdAt ← Cacheable.dateOrNull helper page.date
  let createdTitle ← call (helper.__ (utf16 "article.licensing.created_at"))
  let updatedAt ← Cacheable.dateOrNull helper page.updated
  let updatedTitle ← call (helper.__ (utf16 "article.licensing.updated_at"))
  let licensedTitle ← call (helper.__ (utf16 "article.licensing.licensed_under"))
  pure {
    title := page.title
    link := link
    author := orElse page.author config.author
    authorTitle := some authorTitle
    createdAt := createdAt
    createdTitle := some createdTitle
    updatedAt := updatedAt
    updatedTitle := some updatedTitle
    licenses := some links
    licensedTitle := some licensedTitle }

/-! ## Sample inputs -/

/-- A helper that never raises: `url_for` puts the site root `/blog` before the path, `date`
writes the date object of day `N` as `day N` and anything else as `Invalid date`, `__` returns
the message key. -/
def sampleHelper : Helper Unit Nat :=
  ⟨fun path => .ok (utf16 "/blog" ++ path),
    fun d =>
      match d with
      | .object n => .ok (utf16 "day " ++ [48 + n])
      | _ => .ok (utf16 "Invalid date"),
    fun key => .ok key⟩

/-- Two configured licenses: a plain string and a license entry. -/
def sampleLicenses : JSObject LicenseConfig :=
  [(utf16 "Creative Commons", .plain (utf16 "/cc")),
   (utf16 "Attribution 4.0 International",
    .entry { url := utf16 "/by", icon := some (.single (utf16 "fab fa-x")), text := none })]

/-- A configuration with `sampleLicenses`. -/
def sampleConfig : Config :=
  { article := some { licenses := some sampleLicenses }, author := some (utf16 "me") }

/-- A configuration without `article`. -/
def bareConfig : Config := { article := none, author := none }

/-- A page whose permalink ends with `/index.html`. -/
def indexPage : Page Nat :=
  { title := some (utf16 "Post"), permalink := some (utf16 "https://x/post/index.html"),
    author := none, date := some (.object 1), updated := none }

/-- A page whose permalink does not end with `/index.html`. -/
def otherPage : Page Nat :=
  { title := some (utf16 "Post"), permalink := some (utf16 "https://x/post/page2.html"),
    author := none, date := none, updated := some (.object 2) }

/-- A page whose permalink holds a `%` that starts no escape sequence. -/
def malformedPage : Page Nat :=
  { title := some (utf16 "Post"), permalink := some (utf16 "https://x/100%"),
    author := none, date := none, updated := none }

/-- The `links` object the mapper builds for `sampleLicenses` with `sampleHelper`. -/
def sampleLinks : JSObject LicenseEntry :=
  [(utf16 "Creative Commons", { url := utf16 "/blog/cc", icon := none, text := none }),
   (utf16 "Attribution 4.0 International",
    { url := utf16 "/blog/by", icon := some (.single (utf16 "fab fa-x")), text := none })]

/-- The props the mapper gives for `sampleConfig` and a page, up to the link and the dates. -/
def sampleProps (link : JSString) (createdAt updatedAt : Option JSString) : RenderProps :=
  { title := some (utf16 "Post")
    link := link
    author := some (utf16 "me")
    authorTitle := some (utf16 "article.licensing.author")
    createdAt := createdAt
    createdTitle := some (utf16 "article.licensing.created_at")
    updatedAt := updatedAt
    updatedTitle := some (utf16 "article.licensing.updated_at")
    licenses := some sampleLinks
    licensedTitle := some (utf16 "article.licensing.licensed_under") }

/-- Licenses created in the order `MIT`, `10`, `9`; the last two names are array indices. -/
def indexedLicenses : JSObject LicenseEntry :=
  [(utf16 "MIT", { url := utf16 "/mit", icon := none, text := none }),
   (utf16 "10", { url := utf16 "/ten", icon := none, text := none }),
   (utf16 "9", { url := utf16 "/nine", icon := none, text := none })]

/-- Props with the given licenses and nothing else. -/
def propsWith (licenses : Option (JSObject LicenseEntry)) : RenderProps :=
  { title := none, link := utf16 "https://x/post/", author := none, authorTitle := none,
    createdAt := none, createdTitle := none, updatedAt := none, updatedTitle := none,
    licenses := licenses, licensedTitle := some (utf16 "Licensed under") }

/-- The props the mapper gives for `bareConfig` and `indexPage`. -/
def bareProps : RenderProps :=
  { title := some (utf16 "Post")
    link := utf16 "https://x/post/"
    author := none
    authorTitle := some (utf16 "article.licensing.author")
    createdAt := some (utf16 "day 1")
    createdTitle := some (utf16 "article.licensing.created_at")
    updatedAt := none
    updatedTitle := some (utf16 "article.licensing.updated_at")
    licenses := some []
    licensedTitle := some (utf16 "article.licensing.licensed_under") }

/-- A license whose icon is the empty string. -/
def emptyIconLicenses : JSObject LicenseEntry :=
  [(utf16 "MIT", { url := utf16 "/mit", icon := some (.single (utf16 "")), text := none })]

/-- A license whose icon is a sequence of two classes. -/
def iconSequenceLicenses : JSObject LicenseEntry :=
  [(utf16 "CC", { url := utf16 "/cc", icon := some (.many [utf16 "a", utf16 "b"]),
                  text := some (utf16 "BY") })]

/-- A page whose date is the number `0` and whose update date is the empty string. -/
def falsyDatePage : Page Nat :=
  { title := some (utf16 "Post"), permalink := some (utf16 "https://x/post/"),
    author := none, date := some (.number 0), updated := some (.string (utf16 "")) }

/-- Configured licenses created in the order `MIT`, `__proto__`, `Z`. -/
def protoLicenses : JSObject LicenseConfig :=
  [(utf16 "MIT", .plain (utf16 "/mit")),
   (utf16 "__proto__", .plain (utf16 "/proto")),
   (utf16 "Z", .plain (utf16 "/z"))]

/-- A configuration with `protoLicenses`. -/
def protoConfig : Config :=
  { article := some { licenses := some protoLicenses }, author := some (utf16 "me") }

/-- The `links` object the mapper builds for `protoLicenses` with `sampleHelper`. -/
def protoLinks : JSObject LicenseEntry :=
  [(utf16 "MIT", { url := utf16 "/blog/mit", icon := none, text := none }),
   (utf16 "Z", { url := utf16 "/blog/z", icon := none, text := none })]

/-- Helpers that return on every argument. -/
def Helper.NeverRaises {ε Date : Type} (helper : Helper ε Date) : Prop :=
  (∀ path, ∃ r, helper.url_for path = .ok r) ∧ (∀ d, ∃ r, helper.date d = .ok r) ∧
    ∀ key, ∃ r, helper.__ key = .ok r

/-! # Theorems -/

/-! ## Strings: `substr` and `slice` at the arguments used by the mapper -/

theorem substr_neg_eleven (s : JSString) : substr s (-11) = s.drop (s.length - 11) := by
  unfold substr
  simp only [show ((-11 : Int) < 0) from by decide, if_true]
  congr 1
  omega

theorem slice_zero_neg_ten (s : JSString) : slice s 0 (-10) = s.take (s.length - 10) := by
  unfold slice
  simp only [show ((-10 : Int) < 0) from by decide, show ¬ ((0 : Int) < 0) from by decide,
    if_true, if_false]
  have h0 : (min (0 : Int) (s.length : Int)) = 0 := by omega
  rw [h0]
  simp only [Int.toNat_zero, List.drop_zero, sub_zero]
  congr 1
  omega

theorem utf16_index_html_length : (utf16 "/index.html").length = 11 := by decide

theorem substr_eq_index_iff (s : JSString) :
    (substr s (-11) == utf16 "/index.html") = true ↔ utf16 "/index.html" <:+ s := by
  rw [substr_neg_eleven, beq_iff_eq]
  constructor
  · intro h
    rw [← h]
    exact List.drop_suffix _ _
  · rintro ⟨pre, rfl⟩
    have : (pre ++ utf16 "/index.html").length - 11 = pre.length := by
      simp [utf16_index_html_length]
    rw [this, List.drop_left]

/-! ## The exception monad -/

theorem bind_eq_ok {ε α β : Type} (x : Except ε α) (f : α → Except ε β) (b : β) :
    (x >>= f) = .ok b ↔ ∃ a, x = .ok a ∧ f a = .ok b := by
  cases x with
  | error e => simp [bind, Except.bind]
  | ok a => simp [bind, Except.bind]

theorem bind_eq_error {ε α β : Type} (x : Except ε α) (f : α → Except ε β) (e : ε) :
    (x >>= f) = .error e ↔ x = .error e ∨ ∃ a, x = .ok a ∧ f a = .error e := by
  cases x with
  | error e0 => simp [bind, Except.bind]
  | ok a => simp [bind, Except.bind]

theorem map_eq_ok {ε α β : Type} (x : Except ε α) (f : α → β) (b : β) :
    Except.map f x = .ok b ↔ ∃ a, x = .ok a ∧ f a = b := by
  cases x with
  | error e => simp [Except.map]
  | ok a => simp [Except.map]

theorem call_eq_ok {ε α : Type} (r : Except ε α) (a : α) :
    call r = .ok a ↔ r = .ok a := by
  cases r with
  | error e => simp [call]
  | ok v => simp [call]

theorem call_eq_error {ε α : Type} (r : Except ε α) (t : Thrown ε) :
    call r = .error t ↔ ∃ e, r = .error e ∧ t = .helper e := by
  cases r with
  | error e => simp [call, eq_comm]
  | ok v => simp [call]

theorem builtin_eq_ok {ε α : Type} (r : Except BuiltinError α) (a : α) :
    (builtin r : Except (Thrown ε) α) = .ok a ↔ r = .ok a := by
  cases r with
  | error e => simp [builtin]
  | ok v => simp [builtin]

theorem builtin_eq_error {ε α : Type} (r : Except BuiltinError α) (t : Thrown ε) :
    (builtin r : Except (Thrown ε) α) = .error t ↔ ∃ b, r = .error b ∧ t = .builtin b := by
  cases r with
  | error e => simp [builtin, eq_comm]
  | ok v => simp [builtin]

theorem Cacheable.dateOrNull_eq_ok {ε Date : Type} (helper : Helper ε Date)
    (d : Option (DateValue Date)) (r : Option JSString) :
    Cacheable.dateOrNull helper d = .ok r ↔
    (DateValue.truthy? d = false ∧ r = none) ∨
      ∃ date s, d = some date ∧ date.truthy = true ∧ helper.date date = .ok s ∧ r = some s := by
  cases d with
  | none =>
    constructor
    · intro h
      have h2 : (Except.ok none : Except (Thrown ε) (Option JSString)) = .ok r := h
      exact Or.inl ⟨rfl, (Except.ok.inj h2).symm⟩
    · rintro (⟨_, rfl⟩ | ⟨date, s, h, _⟩)
      · rfl
      · cases h
  | some date =>
    by_cases ht : date.truthy = true
    · simp only [Cacheable.dateOrNull, ht, if_true, map_eq_ok, call_eq_ok, DateValue.truthy?]
      constructor
      · rintro ⟨s, hs, rfl⟩
        exact Or.inr ⟨date, s, rfl, ht, hs, rfl⟩
      · rintro (⟨h, _⟩ | ⟨date2, s, h, _, hs, rfl⟩)
        · cases h
        · cases h
          exact ⟨s, hs, rfl⟩
    · have hf : date.truthy = false := by simpa using ht
      simp only [Cacheable.dateOrNull, hf, Bool.false_eq_true, if_false, DateValue.truthy?,
        Except.ok.injEq]
      constructor
      · intro h
        exact Or.inl ⟨trivial, h.symm⟩
      · rintro (⟨_, h⟩ | ⟨date2, s, h, ht2, _, _⟩)
        · exact h.symm
        · cases h
          rw [hf] at ht2
          cases ht2

/-- What a successful run of the mapper computed, field by field. -/
theorem Cacheable.props_eq_ok {ε Date : Type} (helper : Helper ε Date) (config : Config)
    (page : Page Date) (props : RenderProps) :
    Cacheable.props helper config page = .ok props ↔
    ∃ links link authorTitle createdAt createdTitle updatedAt updatedTitle licensedTitle,
      Cacheable.links helper config = .ok links ∧
      decodeURI (toStringValue (Cacheable.permalink page)) = .ok link ∧
      helper.__ (utf16 "article.licensing.author") = .ok authorTitle ∧
      Cacheable.dateOrNull helper page.date = .ok createdAt ∧
      helper.__ (utf16 "article.licensing.created_at") = .ok createdTitle ∧
      Cacheable.dateOrNull helper page.updated = .ok updatedAt ∧
      helper.__ (utf16 "article.licensing.updated_at") = .ok updatedTitle ∧
      helper.__ (utf16 "article.licensing.licensed_under") = .ok licensedTitle ∧
      props =
        { title := page.title
          link := link
          author := orElse page.author config.author
          authorTitle := some authorTitle
          createdAt := createdAt
          createdTitle := some createdTitle
          updatedAt := updatedAt
          updatedTitle := some updatedTitle
          licenses := some links
          licensedTitle := some licensedTitle } := by
  unfold Cacheable.props
  simp only [bind_eq_ok, call_eq_ok, builtin_eq_ok]
  constructor
  · rintro ⟨links, h1, link, h2, aT, h3, cA, h4, cT, h5, uA, h6, uT, h7, lT, h8, h9⟩
    refine ⟨links, link, aT, cA, cT, uA, uT, lT, h1, h2, h3, h4, h5, h6, h7, h8, ?_⟩
    simpa [pure, Except.pure, eq_comm] using h9
  · rintro ⟨links, link, aT, cA, cT, uA, uT, lT, h1, h2, h3, h4, h5, h6, h7, h8, h9⟩
    refine ⟨links, h1, link, h2, aT, h3, cA, h4, cT, h5, uA, h6, uT, h7, lT, h8, ?_⟩
    simp [pure, Except.pure, h9]

/-! ## Objects -/

/-- The order of own property keys as a function of the creation-ordered names. -/
theorem ownPropertyKeys_perm {α : Type} (o : JSObject α) :
    (ownPropertyKeys o).Perm (o.map Prod.fst) := by
  unfold ownPropertyKeys
  have h1 := List.perm_insertionSort (fun a b : JSString => digitsValue a ≤ digitsValue b)
    ((o.map Prod.fst).filter isArrayIndex)
  have h2 := List.filter_append_perm isArrayIndex (o.map Prod.fst)
  refine (List.Perm.append h1 (List.Perm.refl _)).trans ?_
  exact h2

theorem mem_keys {α : Type} (o : JSObject α) (name : JSString) :
    name ∈ Object.keys o ↔ name ∈ o.map Prod.fst :=
  (ownPropertyKeys_perm o).mem_iff

theorem lookup_cons_eq {α : Type} (o : JSObject α) (name k0 : JSString) (v0 : α) :
    List.lookup name ((k0, v0) :: o) = if name = k0 then some v0 else List.lookup name o := by
  rw [List.lookup_cons]
  by_cases h : name = k0
  · subst h
    simp
  · have h2 : (name == k0) = false := by simpa using h
    rw [h2, if_neg h]

theorem get_eq_none_iff {α : Type} (o : JSObject α) (name : JSString) :
    o.get name = none ↔ name ∉ o.map Prod.fst := by
  unfold JSObject.get
  induction o with
  | nil => simp
  | cons e o ih =>
    obtain ⟨k, v⟩ := e
    rw [lookup_cons_eq]
    by_cases h : name = k
    · subst h
      simp
    · simp [ih, h]

theorem get_isSome_of_mem_keys {α : Type} (o : JSObject α) (name : JSString)
    (h : name ∈ Object.keys o) : ∃ v, o.get name = some v := by
  rw [mem_keys] at h
  cases hg : o.get name with
  | none => exact absurd h ((get_eq_none_iff o name).mp hg)
  | some v => exact ⟨v, rfl⟩

theorem mem_keys_of_get {α : Type} (o : JSObject α) (name : JSString) (v : α)
    (h : o.get name = some v) : name ∈ Object.keys o := by
  rw [mem_keys]
  by_contra hn
  rw [(get_eq_none_iff o name).mpr hn] at h
  cases h

theorem keys_eq_nil_iff {α : Type} (o : JSObject α) : Object.keys o = [] ↔ o = [] := by
  constructor
  · intro h
    have := (ownPropertyKeys_perm o)
    unfold Object.keys at h
    rw [h] at this
    have h2 := this.symm.eq_nil
    simpa using h2
  · rintro rfl
    rfl

theorem lookup_map_replace {α : Type} (o : JSObject α) (k name : JSString) (v : α) :
    List.lookup name (o.map (fun e => if e.1 = k then (k, v) else e))
      = if name = k then (List.lookup k o).map (fun _ => v) else List.lookup name o := by
  induction o with
  | nil => simp
  | cons e o ih =>
    obtain ⟨k0, v0⟩ := e
    by_cases hk : k0 = k
    · subst hk
      simp only [List.map_cons, if_true, lookup_cons_eq, ih]
      by_cases hn : name = k0
      · simp [hn]
      · simp [hn]
    · simp only [List.map_cons, if_neg hk, lookup_cons_eq, ih]
      by_cases hn : name = k
      · subst hn
        have : ¬ name = k0 := fun h => hk h.symm
        simp [this]
      · simp [hn]

theorem lookup_append_singleton {α : Type} (o : JSObject α) (k name : JSString) (v : α)
    (hk : k ∉ o.map Prod.fst) :
    List.lookup name (o ++ [(k, v)]) = if name = k then some v else List.lookup name o := by
  induction o with
  | nil => simp [lookup_cons_eq]
  | cons e o ih =>
    obtain ⟨k0, v0⟩ := e
    have hk0 : k ≠ k0 := by
      intro h
      apply hk
      simp [h]
    have hk1 : k ∉ o.map Prod.fst := by
      intro h
      apply hk
      simp only [List.map_cons, List.mem_cons]
      exact Or.inr h
    simp only [List.cons_append, lookup_cons_eq, ih hk1]
    by_cases hn0 : name = k0
    · subst hn0
      have : ¬ name = k := fun h => hk0 h.symm
      simp [this]
    · simp [hn0]

/-- Reading an own property after a write: the written name gives the written value, unless it
is the new name `__proto__`; other names are as before. -/
theorem get_set {α : Type} (o : JSObject α) (k name : JSString) (v : α) :
    (o.set k v).get name
      = if name = k ∧ (k ∈ o.map Prod.fst ∨ k ≠ utf16 "__proto__") then some v
        else o.get name := by
  unfold JSObject.set
  by_cases hk : k ∈ o.map Prod.fst
  · rw [if_pos hk]
    unfold JSObject.get
    rw [lookup_map_replace]
    by_cases hn : name = k
    · subst hn
      obtain ⟨w, hw⟩ := get_isSome_of_mem_keys o name ((mem_keys o name).mpr hk)
      unfold JSObject.get at hw
      simp [hw, hk]
    · simp [hn]
  · rw [if_neg hk]
    by_cases hp : k = utf16 "__proto__"
    · rw [if_pos hp, if_neg]
      rintro ⟨_, h | h⟩
      · exact hk h
      · exact h hp
    · rw [if_neg hp]
      unfold JSObject.get
      rw [lookup_append_singleton o k name v hk]
      simp [hp]

/-- The names after a write: an existing one keeps its place, the new name `__proto__` is not
created, any other new name is created last. -/
theorem map_fst_set {α : Type} (o : JSObject α) (k : JSString) (v : α) :
    (o.set k v).map Prod.fst
      = if k ∈ o.map Prod.fst ∨ k = utf16 "__proto__" then o.map Prod.fst
        else o.map Prod.fst ++ [k] := by
  unfold JSObject.set
  by_cases hk : k ∈ o.map Prod.fst
  · rw [if_pos hk, if_pos (Or.inl hk), List.map_map]
    apply List.map_congr_left
    intro e _
    by_cases h : e.1 = k
    · simp [h]
    · simp [h]
  · rw [if_neg hk]
    by_cases hp : k = utf16 "__proto__"
    · rw [if_pos hp, if_pos (Or.inr hp)]
    · rw [if_neg hp, if_neg (by simp [hk, hp])]
      simp

/-! ## The order of `Object.keys` -/

theorem sorted_indices (l : List JSString) :
    (l.insertionSort (fun a b => digitsValue a ≤ digitsValue b)).Sorted
      (fun a b => digitsValue a ≤ digitsValue b) := by
  haveI : IsTotal JSString (fun a b => digitsValue a ≤ digitsValue b) :=
    ⟨fun a b => Nat.le_total _ _⟩
  haveI : IsTrans JSString (fun a b => digitsValue a ≤ digitsValue b) :=
    ⟨fun _ _ _ h1 h2 => Nat.le_trans h1 h2⟩
  exact List.sorted_insertionSort _ l

/-- An object whose names were created in the key order of another one, some names that are
not array indices left out, has that key order. -/
theorem keys_of_map_fst_eq_filter {α β : Type} (o : JSObject α) (o2 : JSObject β)
    (p : JSString → Bool) (hp : ∀ k, isArrayIndex k = true → p k = true)
    (h : o2.map Prod.fst = (Object.keys o).filter p) :
    Object.keys o2 = (Object.keys o).filter p := by
  unfold Object.keys ownPropertyKeys at h ⊢
  rw [h]
  generalize hA : (o.map Prod.fst).filter isArrayIndex = A
  generalize hB : (o.map Prod.fst).filter (fun k => !isArrayIndex k) = B
  have hAidx : ∀ a ∈ A.insertionSort (fun a b => digitsValue a ≤ digitsValue b),
      isArrayIndex a = true := by
    intro a ha
    have h1 : a ∈ A := (List.perm_insertionSort _ A).mem_iff.mp ha
    rw [← hA] at h1
    exact (List.mem_filter.mp h1).2
  have hBidx : ∀ b ∈ B.filter p, isArrayIndex b = false := by
    intro b hb
    have hb2 := (List.mem_filter.mp hb).1
    rw [← hB] at hb2
    simpa using (List.mem_filter.mp hb2).2
  have e0 : (A.insertionSort (fun a b => digitsValue a ≤ digitsValue b)).filter p
      = A.insertionSort (fun a b => digitsValue a ≤ digitsValue b) :=
    List.filter_eq_self.mpr (fun a ha => hp a (hAidx a ha))
  have e1 : (A.insertionSort (fun a b => digitsValue a ≤ digitsValue b)).filter isArrayIndex
      = A.insertionSort (fun a b => digitsValue a ≤ digitsValue b) :=
    List.filter_eq_self.mpr hAidx
  have e2 : (B.filter p).filter isArrayIndex = [] := by
    rw [List.filter_eq_nil_iff]
    intro b hb
    simp [hBidx b hb]
  have e3 : (A.insertionSort (fun a b => digitsValue a ≤ digitsValue b)).filter
      (fun k => !isArrayIndex k) = [] := by
    rw [List.filter_eq_nil_iff]
    intro a ha
    simp [hAidx a ha]
  have e4 : (B.filter p).filter (fun k => !isArrayIndex k) = B.filter p := by
    rw [List.filter_eq_self]
    intro b hb
    simp [hBidx b hb]
  rw [List.filter_append, e0, List.filter_append, List.filter_append, e1, e2, e3, e4,
    List.append_nil, List.nil_append, List.Sorted.insertionSort_eq (sorted_indices A)]

/-- When no name is an array index, the key order is the creation order. -/
theorem keys_eq_creation_order {α : Type} (o : JSObject α)
    (h : ∀ k ∈ o.map Prod.fst, isArrayIndex k = false) : Object.keys o = o.map Prod.fst := by
  unfold Object.keys ownPropertyKeys
  have e1 : (o.map Prod.fst).filter isArrayIndex = [] := by
    rw [List.filter_eq_nil_iff]
    intro k hk
    simp [h k hk]
  have e2 : (o.map Prod.fst).filter (fun k => !isArrayIndex k) = o.map Prod.fst := by
    rw [List.filter_eq_self]
    intro k hk
    simp [h k hk]
  rw [e1, e2]
  rfl

theorem keys_nodup {α : Type} (o : JSObject α) (h : (o.map Prod.fst).Nodup) :
    (Object.keys o).Nodup :=
  (ownPropertyKeys_perm o).nodup_iff.mpr h

theorem keys_length {α : Type} (o : JSObject α) : (Object.keys o).length = o.length := by
  have := (ownPropertyKeys_perm o).length_eq
  simpa using this

/-! ## The `links` object of the mapper -/

theorem Cacheable.addLink_eq_ok {ε Date : Type} (helper : Helper ε Date)
    (licenses : JSObject LicenseConfig) (links res : JSObject LicenseEntry) (name : JSString) :
    Cacheable.addLink helper licenses links name = .ok res ↔
    ∃ license url, licenses.get name = some license ∧
      helper.url_for license.urlArgument = .ok url ∧
      res = links.set name { url := url, icon := license.icon, text := license.text } := by
  unfold Cacheable.addLink
  cases hg : licenses.get name with
  | none => simp
  | some license =>
    cases hu : helper.url_for license.urlArgument with
    | error e => simp [hu]
    | ok url => simp [hu, eq_comm]

theorem Cacheable.addLink_eq_error {ε Date : Type} (helper : Helper ε Date)
    (licenses : JSObject LicenseConfig) (links : JSObject LicenseEntry) (name : JSString)
    (t : Thrown ε) :
    Cacheable.addLink helper licenses links name = .error t ↔
    (licenses.get name = none ∧ t = .builtin .TypeError) ∨
    ∃ license e, licenses.get name = some license ∧
      helper.url_for license.urlArgument = .error e ∧ t = .helper e := by
  unfold Cacheable.addLink
  cases hg : licenses.get name with
  | none => simp [eq_comm]
  | some license =>
    cases hu : helper.url_for license.urlArgument with
    | error e => simp [hu, eq_comm]
    | ok url => simp [hu]

theorem isArrayIndex_proto : isArrayIndex (utf16 "__proto__") = false := by decide

/-- After the `forEach` on an object without own `__proto__`, every visited name other than
`__proto__` holds the entry built from its license, the other names are untouched and there is
still no own `__proto__`. -/
theorem Cacheable.foldlM_addLink_get {ε Date : Type} (helper : Helper ε Date)
    (licenses : JSObject LicenseConfig) (ks : List JSString) :
    ∀ (acc res : JSObject LicenseEntry),
      ks.foldlM (Cacheable.addLink helper licenses) acc = .ok res →
      utf16 "__proto__" ∉ acc.map Prod.fst →
      utf16 "__proto__" ∉ res.map Prod.fst ∧
      ∀ name,
        (name ∈ ks → name ≠ utf16 "__proto__" → ∃ license url,
          licenses.get name = some license ∧
          helper.url_for license.urlArgument = .ok url ∧
          res.get name = some { url := url, icon := license.icon, text := license.text }) ∧
        ((name ∉ ks ∨ name = utf16 "__proto__") → res.get name = acc.get name) := by
  induction ks with
  | nil =>
    intro acc res h hp
    simp only [List.foldlM_nil, pure, Except.pure, Except.ok.injEq] at h
    subst h
    simp [hp]
  | cons k ks ih =>
    intro acc res h hp
    rw [List.foldlM_cons, bind_eq_ok] at h
    obtain ⟨acc1, h1, h2⟩ := h
    obtain ⟨license, url, hg, hu, rfl⟩ := (Cacheable.addLink_eq_ok _ _ _ _ _).mp h1
    have hp1 : utf16 "__proto__" ∉
        (acc.set k { url := url, icon := license.icon, text := license.text }).map Prod.fst := by
      rw [map_fst_set]
      by_cases hc : k ∈ acc.map Prod.fst ∨ k = utf16 "__proto__"
      · rw [if_pos hc]
        exact hp
      · rw [if_neg hc]
        simp only [List.mem_append, List.mem_singleton, not_or]
        exact ⟨hp, fun h => hc (Or.inr h.symm)⟩
    obtain ⟨hres, ih1⟩ := ih _ res h2 hp1
    refine ⟨hres, ?_⟩
    intro name
    have ihn := ih1 name
    have hprotoSet : ∀ e : LicenseEntry,
        (acc.set (utf16 "__proto__") e).get (utf16 "__proto__") = acc.get (utf16 "__proto__") := by
      intro e
      rw [get_set, if_neg]
      rintro ⟨_, h | h⟩
      · exact hp h
      · exact h rfl
    constructor
    · intro hmem hnp
      by_cases hks : name ∈ ks
      · exact ihn.1 hks hnp
      · have hk : name = k := by
          rcases List.mem_cons.mp hmem with h | h
          · exact h
          · exact absurd h hks
        subst hk
        refine ⟨license, url, hg, hu, ?_⟩
        rw [ihn.2 (Or.inl hks), get_set, if_pos ⟨rfl, Or.inr hnp⟩]
    · rintro (hmem | hnp)
      · have hk : ¬ name = k := fun h => hmem (by simp [h])
        have hks : name ∉ ks := fun h => hmem (by simp [h])
        rw [ihn.2 (Or.inl hks), get_set, if_neg (fun h => hk h.1)]
      · rw [ihn.2 (Or.inr hnp), get_set]
        by_cases hk : name = k
        · subst hk
          rw [if_neg]
          rintro ⟨_, h | h⟩
          · rw [hnp] at h
            exact hp h
          · exact h hnp
        · rw [if_neg (fun h => hk h.1)]

/-- After the `forEach` over distinct new names, the names other than `__proto__` were created
in the visiting order. -/
theorem Cacheable.foldlM_addLink_names {ε Date : Type} (helper : Helper ε Date)
    (licenses : JSObject LicenseConfig) (ks : List JSString) :
    ∀ (acc res : JSObject LicenseEntry),
      ks.foldlM (Cacheable.addLink helper licenses) acc = .ok res →
      ks.Nodup → (∀ k ∈ ks, k ∉ acc.map Prod.fst) →
      res.map Prod.fst = acc.map Prod.fst ++ ks.filter (fun k => k != utf16 "__proto__") := by
  induction ks with
  | nil =>
    intro acc res h _ _
    simp only [List.foldlM_nil, pure, Except.pure, Except.ok.injEq] at h
    subst h
    simp
  | cons k ks ih =>
    intro acc res h hnd hdisj
    rw [List.foldlM_cons, bind_eq_ok] at h
    obtain ⟨acc1, h1, h2⟩ := h
    obtain ⟨license, url, hg, hu, rfl⟩ := (Cacheable.addLink_eq_ok _ _ _ _ _).mp h1
    have hk : k ∉ acc.map Prod.fst := hdisj k (by simp)
    have hnd2 := List.nodup_cons.mp hnd
    by_cases hp : k = utf16 "__proto__"
    · have hset : (acc.set k { url := url, icon := license.icon, text := license.text }).map
          Prod.fst = acc.map Prod.fst := by
        rw [map_fst_set, if_pos (Or.inr hp)]
      have := ih _ res h2 hnd2.2 (by
        intro k2 hk2
        rw [hset]
        exact hdisj k2 (by simp [hk2]))
      rw [this, hset, List.filter_cons]
      simp [hp]
    · have hset : (acc.set k { url := url, icon := license.icon, text := license.text }).map
          Prod.fst = acc.map Prod.fst ++ [k] := by
        rw [map_fst_set, if_neg (by simp [hk, hp])]
      have := ih _ res h2 hnd2.2 (by
        intro k2 hk2
        rw [hset]
        simp only [List.mem_append, List.mem_singleton, not_or]
        refine ⟨hdisj k2 (by simp [hk2]), ?_⟩
        rintro rfl
        exact hnd2.1 hk2)
      rw [this, hset, List.filter_cons]
      simp [hp]

/-- The `forEach` completes when `url_for` returns for every visited license. -/
theorem Cacheable.foldlM_addLink_ok {ε Date : Type} (helper : Helper ε Date)
    (licenses : JSObject LicenseConfig) (ks : List JSString)
    (hks : ∀ k ∈ ks, ∃ license url, licenses.get k = some license ∧
      helper.url_for license.urlArgument = .ok url) :
    ∀ (acc : JSObject LicenseEntry),
      ∃ res, ks.foldlM (Cacheable.addLink helper licenses) acc = .ok res := by
  induction ks with
  | nil =>
    intro acc
    exact ⟨acc, rfl⟩
  | cons k ks ih =>
    intro acc
    obtain ⟨license, url, hg, hu⟩ := hks k (by simp)
    obtain ⟨res, hres⟩ := ih (fun k2 hk2 => hks k2 (by simp [hk2]))
      (acc.set k { url := url, icon := license.icon, text := license.text })
    refine ⟨res, ?_⟩
    rw [List.foldlM_cons, bind_eq_ok]
    exact ⟨_, (Cacheable.addLink_eq_ok _ _ _ _ _).mpr ⟨license, url, hg, hu, rfl⟩, hres⟩

/-- A failing `forEach` over names of `licenses` fails with what `url_for` raised. -/
theorem Cacheable.foldlM_addLink_error {ε Date : Type} (helper : Helper ε Date)
    (licenses : JSObject LicenseConfig) (ks : List JSString)
    (hks : ∀ k ∈ ks, k ∈ Object.keys licenses) :
    ∀ (acc : JSObject LicenseEntry) (t : Thrown ε),
      ks.foldlM (Cacheable.addLink helper licenses) acc = .error t →
      ∃ name license e, licenses.get name = some license ∧
        helper.url_for license.urlArgument = .error e ∧ t = .helper e := by
  induction ks with
  | nil =>
    intro acc t h
    simp [List.foldlM_nil, pure, Except.pure] at h
  | cons k ks ih =>
    intro acc t h
    rw [List.foldlM_cons, bind_eq_error] at h
    rcases h with h | ⟨acc1, _, h2⟩
    · rcases (Cacheable.addLink_eq_error _ _ _ _ _).mp h with ⟨hn, _⟩ | ⟨license, e, hg, hu, ht⟩
      · obtain ⟨v, hv⟩ := get_isSome_of_mem_keys licenses k (hks k (by simp))
        rw [hv] at hn
        cases hn
      · exact ⟨k, license, e, hg, hu, ht⟩
    · exact ih (fun k2 hk2 => hks k2 (by simp [hk2])) acc1 t h2

/-! ## `render` -/

theorem licenseAnchor_of_get (licenses : JSObject LicenseEntry) (name : JSString)
    (entry : LicenseEntry) (h : licenses.get name = some entry) :
    licenseAnchor licenses name = .ok (.elem "a"
      [("rel", utf16 "noopener"),
       ("target", utf16 "_blank"),
       ("title", name),
       ("class", if Icon.truthy entry.icon && !Array.isArray entry.icon then utf16 "icon"
                 else utf16 ""),
       ("href", entry.url)]
      [(match entry.icon with
        | none => .text name
        | some (.single cls) =>
          if truthy cls then .elem "i" [("className", cls)] [] else .text name
        | some (.many classes) =>
          .arr (classes.map fun i => .arr [.elem "i" [("className", i)] [], .text [0xA0]])),
       .text (if truthy? entry.text then entry.text.getD [] else utf16 "")]) := by
  unfold licenseAnchor
  rw [h]

/-- A `map` whose callback returns on every element returns the list of the results. -/
theorem mapM_ok {α β : Type} (f : α → Except BuiltinError β) (l : List α)
    (h : ∀ x ∈ l, ∃ y, f x = .ok y) :
    ∃ ys, l.mapM f = .ok ys ∧ List.Forall₂ (fun x y => f x = .ok y) l ys := by
  induction l with
  | nil => exact ⟨[], rfl, List.Forall₂.nil⟩
  | cons x l ih =>
    obtain ⟨y, hy⟩ := h x (by simp)
    obtain ⟨ys, hys, hall⟩ := ih (fun z hz => h z (by simp [hz]))
    refine ⟨y :: ys, ?_, List.Forall₂.cons hy hall⟩
    rw [List.mapM_cons, hy, hys]
    rfl

theorem anchorTitles_licenseAnchor (licenses : JSObject LicenseEntry) (name : JSString)
    (a : VNode) (h : licenseAnchor licenses name = .ok a) : a.anchorTitles = [name] := by
  unfold licenseAnchor at h
  cases hg : licenses.get name with
  | none => simp [hg] at h
  | some entry =>
    simp only [hg, Except.ok.injEq] at h
    subst h
    have key : ∀ classes : List JSString, VNode.anchorTitlesList
        (classes.map fun i => VNode.arr [.elem "i" [("className", i)] [], .text [0xA0]]) = [] := by
      intro classes
      induction classes with
      | nil => rfl
      | cons c cs ih =>
        simp [VNode.anchorTitlesList, VNode.anchorTitles, ih]
    rcases hi : entry.icon with _ | ⟨cls⟩ | ⟨classes⟩
    · simp [VNode.anchorTitles, VNode.anchorTitlesList, List.lookup]
    · by_cases hc : truthy cls = true
      · simp [VNode.anchorTitles, VNode.anchorTitlesList, List.lookup, hc]
      · simp [VNode.anchorTitles, VNode.anchorTitlesList, List.lookup, hc]
    · simp [VNode.anchorTitles, VNode.anchorTitlesList, List.lookup, key]

theorem anchorTitlesList_anchors (licenses : JSObject LicenseEntry) (ks : List JSString)
    (anchors : List VNode)
    (h : List.Forall₂ (fun name a => licenseAnchor licenses name = .ok a) ks anchors) :
    VNode.anchorTitlesList anchors = ks := by
  induction h with
  | nil => rfl
  | cons h1 _ ih =>
    simp [VNode.anchorTitlesList, anchorTitles_licenseAnchor _ _ _ h1, ih]

theorem flattenList_anchors (licenses : JSObject LicenseEntry) (ks : List JSString)
    (anchors : List VNode)
    (h : List.Forall₂ (fun name a => licenseAnchor licenses name = .ok a) ks anchors) :
    VNode.flattenList anchors = anchors := by
  induction h with
  | nil => rfl
  | @cons name a ks anchors h1 _ ih =>
    unfold licenseAnchor at h1
    cases hg : licenses.get name with
    | none => simp [hg] at h1
    | some entry =>
      simp only [hg, Except.ok.injEq] at h1
      subst h1
      simp [VNode.flattenList, VNode.flatten, ih]

/-- The licenses item: left out without licenses, else one anchor per key, in key order. -/
theorem licensesItem_eq (licenses : Option (JSObject LicenseEntry))
    (licensedTitle : Option JSString) :
    (licenses = none ∨ licenses = some []) ∧ licensesItem licenses licensedTitle = .ok .null ∨
    ∃ o anchors, licenses = some o ∧ o ≠ [] ∧
      List.Forall₂ (fun name a => licenseAnchor o name = .ok a) (Object.keys o) anchors ∧
      licensesItem licenses licensedTitle =
        .ok (.elem "div" [("class", utf16 "level-item is-narrow")]
          [.elem "div" []
            [.elem "h6" [] [.ofValue licensedTitle],
             .elem "p" [] [.arr anchors]]]) := by
  cases licenses with
  | none => exact Or.inl ⟨Or.inl rfl, rfl⟩
  | some o =>
    by_cases ho : o = []
    · subst ho
      exact Or.inl ⟨Or.inr rfl, rfl⟩
    · right
      have hlen : (Object.keys o).length ≠ 0 := by
        rw [keys_length]
        simpa using ho
      obtain ⟨anchors, hm, hall⟩ := mapM_ok (licenseAnchor o) (Object.keys o)
        (fun name hn => by
          obtain ⟨entry, he⟩ := get_isSome_of_mem_keys o name hn
          exact ⟨_, licenseAnchor_of_get o name entry he⟩)
      refine ⟨o, anchors, rfl, ho, hall, ?_⟩
      unfold licensesItem
      simp only [hlen, ne_eq, not_false_eq_true, if_true, hm]
      rfl

/-- The tree `render` returns, with the licenses item computed apart. -/
theorem render_eq (props : RenderProps) :
    ∃ licensing, licensesItem props.licenses props.licensedTitle = .ok licensing ∧
      render props = .ok (.elem "div" [("class", utf16 "article-licensing box")]
        [.elem "div" [("class", utf16 "licensing-title")]
          [if truthy? props.title then .elem "p" [] [.ofValue props.title] else .null,
           .elem "p" [] [.elem "a" [("href", props.link)] [.text props.link]]],
         .elem "div" [("class", utf16 "licensing-meta level is-mobile")]
          [.elem "div" [("class", utf16 "level-left")]
            [if truthy? props.author then
               .elem "div" [("class", utf16 "level-item is-narrow")]
                 [.elem "div" []
                   [.elem "h6" [] [.ofValue props.authorTitle],
                    .elem "p" [] [.ofValue props.author]]]
             else .null,
             if truthy? props.createdAt then
               .elem "div" [("class", utf16 "level-item is-narrow")]
                 [.elem "div" []
                   [.elem "h6" [] [.ofValue props.createdTitle],
                    .elem "p" [] [.ofValue props.createdAt]]]
             else .null,
             if truthy? props.updatedAt then
               .elem "div" [("class", utf16 "level-item is-narrow")]
                 [.elem "div" []
                   [.elem "h6" [] [.ofValue props.updatedTitle],
                    .elem "p" [] [.ofValue props.updatedAt]]]
             else .null,
             licensing]]]) := by
  rcases licensesItem_eq props.licenses props.licensedTitle with ⟨_, h⟩ | ⟨o, anchors, _, _, _, h⟩
  · exact ⟨_, h, by unfold render; rw [h]; rfl⟩
  · exact ⟨_, h, by unfold render; rw [h]; rfl⟩

theorem anchorTitles_ofValue (v : Option JSString) : (VNode.ofValue v).anchorTitles = [] := by
  cases v <;> rfl

/-- The items of the meta row and the license anchors of the tree `render` returns. -/
theorem render_items (props : RenderProps) :
    ∃ t licensing, render props = .ok t ∧
      licensesItem props.licenses props.licensedTitle = .ok licensing ∧
      metaItem t 3 = licensing ∧
      metaItem t 1 =
        (if truthy? props.createdAt then
           .elem "div" [("class", utf16 "level-item is-narrow")]
             [.elem "div" []
               [.elem "h6" [] [.ofValue props.createdTitle],
                .elem "p" [] [.ofValue props.createdAt]]]
         else .null) ∧
      metaItem t 2 =
        (if truthy? props.updatedAt then
           .elem "div" [("class", utf16 "level-item is-narrow")]
             [.elem "div" []
               [.elem "h6" [] [.ofValue props.updatedTitle],
                .elem "p" [] [.ofValue props.updatedAt]]]
         else .null) ∧
      t.anchorTitles = licensing.anchorTitles := by
  obtain ⟨licensing, h1, h2⟩ := render_eq props
  refine ⟨_, licensing, h2, h1, rfl, rfl, rfl, ?_⟩
  by_cases ht : truthy? props.title = true <;> by_cases ha : truthy? props.author = true <;>
    by_cases hc : truthy? props.createdAt = true <;>
    by_cases hu : truthy? props.updatedAt = true <;>
    simp [VNode.anchorTitles, VNode.anchorTitlesList, ht, ha, hc, hu, List.lookup,
      anchorTitles_ofValue]

/-! ## The derived link -/

theorem Cacheable.permalink_of_index {Date : Type} (page : Page Date) (permalink : JSString)
    (hp : page.permalink = some permalink) (hs : utf16 "/index.html" <:+ permalink) :
    Cacheable.permalink page = some (permalink.take (permalink.length - 10)) := by
  unfold Cacheable.permalink
  rw [hp]
  have h1 : (substr permalink (-11) == utf16 "/index.html") = true :=
    (substr_eq_index_iff permalink).mpr hs
  have h2 : truthy permalink = true := by
    obtain ⟨pre, rfl⟩ := hs
    cases pre <;> rfl
  simp only [h1, h2, Bool.and_self, if_true, slice_zero_neg_ten]

theorem Cacheable.permalink_of_other {Date : Type} (page : Page Date) (permalink : JSString)
    (hp : page.permalink = some permalink) (hs : ¬ utf16 "/index.html" <:+ permalink) :
    Cacheable.permalink page = some permalink := by
  unfold Cacheable.permalink
  rw [hp]
  have h1 : (substr permalink (-11) == utf16 "/index.html") = false := by
    rw [Bool.eq_false_iff]
    exact fun h => hs ((substr_eq_index_iff permalink).mp h)
  simp only [h1, Bool.and_false, Bool.false_eq_true, if_false]

/-- C1. When `page.permalink` ends with `/index.html`, the link of the props the mapper returns
is `decodeURI` of the permalink without its last 10 code units: `index.html` is cut, the slash
before it stays, and putting `index.html` back gives the permalink. -/
theorem Cacheable.link_of_index_permalink {ε Date : Type} (helper : Helper ε Date)
    (config : Config) (page : Page Date) (permalink : JSString) (props : RenderProps)
    (hp : page.permalink = some permalink) (hs : utf16 "/index.html" <:+ permalink)
    (hok : Cacheable.props helper config page = .ok props) :
    Cacheable.permalink page = some (permalink.take (permalink.length - 10)) ∧
    decodeURI (permalink.take (permalink.length - 10)) = .ok props.link ∧
    (permalink.take (permalink.length - 10)).length + 10 = permalink.length ∧
    permalink.take (permalink.length - 10) ++ utf16 "index.html" = permalink ∧
    utf16 "/" <:+ permalink.take (permalink.length - 10) := by
  obtain ⟨links, link, aT, cA, cT, uA, uT, lT, _, h2, _, _, _, _, _, _, rfl⟩ :=
    (Cacheable.props_eq_ok helper config page props).mp hok
  rw [Cacheable.permalink_of_index page permalink hp hs] at h2
  refine ⟨Cacheable.permalink_of_index page permalink hp hs, h2, ?_, ?_, ?_⟩
  · obtain ⟨pre, rfl⟩ := hs
    simp [utf16_index_html_length]
  · obtain ⟨pre, rfl⟩ := hs
    have hlen : (pre ++ utf16 "/index.html").length - 10 = (pre ++ utf16 "/").length := by
      simp [utf16_index_html_length]
      rfl
    have hsplit : pre ++ utf16 "/index.html" = (pre ++ utf16 "/") ++ utf16 "index.html" := by
      rw [List.append_assoc]
      rfl
    rw [hlen]
    conv_lhs => rw [hsplit, List.take_left]
    exact hsplit.symm
  · obtain ⟨pre, rfl⟩ := hs
    have hlen : (pre ++ utf16 "/index.html").length - 10 = (pre ++ utf16 "/").length := by
      simp [utf16_index_html_length]
      rfl
    have hsplit : pre ++ utf16 "/index.html" = (pre ++ utf16 "/") ++ utf16 "index.html" := by
      rw [List.append_assoc]
      rfl
    rw [hlen, hsplit, List.take_left]
    exact List.suffix_append _ _

/-- The permalink `https://x/post/index.html` gives the link `https://x/post/`. -/
theorem Cacheable.link_of_index_permalink_witness :
    Cacheable.props sampleHelper sampleConfig indexPage
      = .ok (sampleProps (utf16 "https://x/post/") (some (utf16 "day 1")) none) ∧
    Cacheable.permalink indexPage = some ((utf16 "https://x/post/index.html").take
      ((utf16 "https://x/post/index.html").length - 10)) ∧
    decodeURI ((utf16 "https://x/post/index.html").take
      ((utf16 "https://x/post/index.html").length - 10)) = .ok (utf16 "https://x/post/") ∧
    ((utf16 "https://x/post/index.html").take
      ((utf16 "https://x/post/index.html").length - 10)).length + 10
        = (utf16 "https://x/post/index.html").length ∧
    (utf16 "https://x/post/index.html").take ((utf16 "https://x/post/index.html").length - 10)
      ++ utf16 "index.html" = utf16 "https://x/post/index.html" ∧
    utf16 "/" <:+ (utf16 "https://x/post/index.html").take
      ((utf16 "https://x/post/index.html").length - 10) :=
  ⟨by rfl, Cacheable.link_of_index_permalink sampleHelper sampleConfig indexPage
    (utf16 "https://x/post/index.html")
    (sampleProps (utf16 "https://x/post/") (some (utf16 "day 1")) none) rfl
    ⟨utf16 "https://x/post", by rfl⟩ (by rfl)⟩

/-- C2. When `page.permalink` does not end with `/index.html` (also when it is shorter than
11 code units), the link of the props the mapper returns is `decodeURI` of the whole
permalink. -/
theorem Cacheable.link_of_other_permalink {ε Date : Type} (helper : Helper ε Date)
    (config : Config) (page : Page Date) (permalink : JSString) (props : RenderProps)
    (hp : page.permalink = some permalink) (hs : ¬ utf16 "/index.html" <:+ permalink)
    (hok : Cacheable.props helper config page = .ok props) :
    Cacheable.permalink page = some permalink ∧ decodeURI permalink = .ok props.link ∧
    ∀ (short : Page Date) (p : JSString), short.permalink = some p → p.length < 11 →
      Cacheable.permalink short = some p := by
  obtain ⟨links, link, aT, cA, cT, uA, uT, lT, _, h2, _, _, _, _, _, _, rfl⟩ :=
    (Cacheable.props_eq_ok helper config page props).mp hok
  rw [Cacheable.permalink_of_other page permalink hp hs] at h2
  refine ⟨Cacheable.permalink_of_other page permalink hp hs, h2, ?_⟩
  intro short p hsp hlen
  apply Cacheable.permalink_of_other short p hsp
  intro hsuf
  have := hsuf.length_le
  rw [utf16_index_html_length] at this
  omega

/-- The permalink `https://x/post/page2.html` is the link. -/
theorem Cacheable.link_of_other_permalink_witness :
    Cacheable.props sampleHelper sampleConfig otherPage
      = .ok (sampleProps (utf16 "https://x/post/page2.html") none (some (utf16 "day 2"))) ∧
    Cacheable.permalink otherPage = some (utf16 "https://x/post/page2.html") ∧
    decodeURI (utf16 "https://x/post/page2.html") = .ok (utf16 "https://x/post/page2.html") ∧
    ∀ (short : Page Nat) (p : JSString), short.permalink = some p → p.length < 11 →
      Cacheable.permalink short = some p :=
  ⟨by rfl, Cacheable.link_of_other_permalink sampleHelper sampleConfig otherPage
    (utf16 "https://x/post/page2.html")
    (sampleProps (utf16 "https://x/post/page2.html") none (some (utf16 "day 2"))) rfl
    (by decide) (by rfl)⟩

/-! ## The derived licenses -/

theorem Cacheable.links_of_none {ε Date : Type} (helper : Helper ε Date) (config : Config)
    (h : config.article = none ∨ ∃ article, config.article = some article ∧
      article.licenses = none) :
    Cacheable.links helper config = .ok [] := by
  unfold Cacheable.links
  rcases h with h | ⟨article, h, hl⟩
  · rw [h]
    rfl
  · rw [h]
    simp only [Option.getD_some, hl]

theorem Cacheable.links_of_some {ε Date : Type} (helper : Helper ε Date) (config : Config)
    (article : Article) (licenses : JSObject LicenseConfig)
    (hc : config.article = some article) (hl : article.licenses = some licenses) :
    Cacheable.links helper config
      = (Object.keys licenses).foldlM (Cacheable.addLink helper licenses) [] := by
  unfold Cacheable.links
  rw [hc]
  simp only [Option.getD_some, hl]

/-- C3 (fails as stated). For the configured licenses `MIT`, `__proto__`, `Z` the derived
`licenses` has the own entries `MIT` and `Z` only: the write of `__proto__` created no entry,
although `__proto__` is a name of `config.article.licenses`. -/
theorem Cacheable.licenses_of_config_counterexample :
    protoLicenses.get (utf16 "__proto__") = some (.plain (utf16 "/proto")) ∧
    (Cacheable.props sampleHelper protoConfig indexPage).map (fun props => props.licenses)
      = .ok (some protoLinks) ∧
    protoLinks.get (utf16 "__proto__") = none ∧
    Object.keys protoLinks = [utf16 "MIT", utf16 "Z"] :=
  ⟨by rfl, by rfl, by rfl, by rfl⟩

/-- C3 (amended). For every name of `config.article.licenses` other than `__proto__` the
derived `licenses[name]` is `{url, icon, text}` with `url = url_for(v)` for a plain string `v`
(then `icon` and `text` are absent) and `url = url_for(v.url)`, `icon = v.icon`,
`text = v.text` for an entry `v`; names that are not in `config.article.licenses` have no
entry, and neither has `__proto__`. -/
theorem Cacheable.licenses_of_config {ε Date : Type} (helper : Helper ε Date)
    (config : Config) (page : Page Date) (props : RenderProps) (article : Article)
    (licenses : JSObject LicenseConfig)
    (hc : config.article = some article) (hl : article.licenses = some licenses)
    (hok : Cacheable.props helper config page = .ok props) :
    ∃ links, props.licenses = some links ∧
      (∀ name s, name ≠ utf16 "__proto__" → licenses.get name = some (.plain s) →
        ∃ url, helper.url_for s = .ok url ∧
          links.get name = some { url := url, icon := none, text := none }) ∧
      (∀ name e, name ≠ utf16 "__proto__" → licenses.get name = some (.entry e) →
        ∃ url, helper.url_for e.url = .ok url ∧
          links.get name = some { url := url, icon := e.icon, text := e.text }) ∧
      (∀ name, licenses.get name = none → links.get name = none) ∧
      links.get (utf16 "__proto__") = none ∧
      utf16 "__proto__" ∉ Object.keys links := by
  obtain ⟨links, link, aT, cA, cT, uA, uT, lT, h1, _, _, _, _, _, _, _, rfl⟩ :=
    (Cacheable.props_eq_ok helper config page props).mp hok
  rw [Cacheable.links_of_some helper config article licenses hc hl] at h1
  obtain ⟨hproto, key⟩ :=
    Cacheable.foldlM_addLink_get helper licenses (Object.keys licenses) [] links h1 (by simp)
  refine ⟨links, rfl, ?_, ?_, ?_, ?_, ?_⟩
  · intro name s hnp hg
    obtain ⟨license, url, hg2, hu, hr⟩ :=
      (key name).1 (mem_keys_of_get licenses name _ hg) hnp
    rw [hg] at hg2
    cases hg2
    exact ⟨url, hu, hr⟩
  · intro name e hnp hg
    obtain ⟨license, url, hg2, hu, hr⟩ :=
      (key name).1 (mem_keys_of_get licenses name _ hg) hnp
    rw [hg] at hg2
    cases hg2
    exact ⟨url, hu, hr⟩
  · intro name hg
    have hn : name ∉ Object.keys licenses := by
      rw [mem_keys]
      exact (get_eq_none_iff licenses name).mp hg
    rw [(key name).2 (Or.inl hn)]
    rfl
  · exact (get_eq_none_iff links _).mpr hproto
  · rw [mem_keys]
    exact hproto

/-- The two licenses of `sampleConfig` give the two entries of `sampleProps`. -/
theorem Cacheable.licenses_of_config_witness :
    ∃ links, (sampleProps (utf16 "https://x/post/") (some (utf16 "day 1")) none).licenses
        = some links ∧
      (∀ name s, name ≠ utf16 "__proto__" → sampleLicenses.get name = some (.plain s) →
        ∃ url, sampleHelper.url_for s = .ok url ∧
          links.get name = some { url := url, icon := none, text := none }) ∧
      (∀ name e, name ≠ utf16 "__proto__" → sampleLicenses.get name = some (.entry e) →
        ∃ url, sampleHelper.url_for e.url = .ok url ∧
          links.get name = some { url := url, icon := e.icon, text := e.text }) ∧
      (∀ name, sampleLicenses.get name = none → links.get name = none) ∧
      links.get (utf16 "__proto__") = none ∧
      utf16 "__proto__" ∉ Object.keys links :=
  Cacheable.licenses_of_config sampleHelper sampleConfig indexPage
    (sampleProps (utf16 "https://x/post/") (some (utf16 "day 1")) none) _ _ rfl rfl (by rfl)

/-! ## The rendered licenses -/

/-- The licenses item for a non-empty `licenses`: the anchors of the keys, in key order. -/
theorem render_of_licenses (props : RenderProps) (licenses : JSObject LicenseEntry)
    (hl : props.licenses = some licenses) :
    ∃ t, render props = .ok t ∧ t.anchorTitles = Object.keys licenses ∧
      List.Forall₂ (fun name a => licenseAnchor licenses name = .ok a)
        (Object.keys licenses) (licenseAnchors t) ∧
      (licenses ≠ [] → metaItem t 3 =
        .elem "div" [("class", utf16 "level-item is-narrow")]
          [.elem "div" []
            [.elem "h6" [] [.ofValue props.licensedTitle],
             .elem "p" [] [.arr (licenseAnchors t)]]]) := by
  obtain ⟨t, licensing, h1, h2, h3, _, _, h4⟩ := render_items props
  refine ⟨t, h1, ?_⟩
  unfold licenseAnchors
  rw [h4, h3]
  rcases licensesItem_eq props.licenses props.licensedTitle with
    ⟨hn, h⟩ | ⟨o, anchors, ho, hne, hall, h⟩
  · have ho : licenses = [] := by
      rcases hn with hn | hn
      · rw [hl] at hn
        cases hn
      · rw [hl] at hn
        cases hn
        rfl
    subst ho
    rw [h] at h2
    cases h2
    exact ⟨rfl, List.Forall₂.nil, fun h => absurd rfl h⟩
  · rw [hl] at ho
    cases ho
    rw [h] at h2
    cases h2
    have hf : VNode.flattenList [VNode.arr anchors] = anchors := by
      simp [VNode.flattenList, VNode.flatten, flattenList_anchors licenses _ _ hall]
    refine ⟨?_, ?_, ?_⟩
    · simp [VNode.anchorTitles, VNode.anchorTitlesList, List.lookup, anchorTitles_ofValue,
        anchorTitlesList_anchors licenses _ _ hall]
    · simp only [VNode.childAt, VNode.children, List.getD_cons_zero, List.getD_cons_succ, hf]
      exact hall
    · intro _
      simp only [VNode.childAt, VNode.children, List.getD_cons_zero, List.getD_cons_succ, hf]

/-- C4 (fails as stated). With licenses created in the order `MIT`, `10`, `9` the anchors come
out in the order `9`, `10`, `MIT`, which is not the creation order; and for the configured
licenses `MIT`, `__proto__`, `Z` the mapper builds a `licenses` with the keys `MIT`, `Z`. -/
theorem render_anchor_order_counterexample :
    indexedLicenses.map Prod.fst = [utf16 "MIT", utf16 "10", utf16 "9"] ∧
    (render (propsWith (some indexedLicenses))).map VNode.anchorTitles
      = .ok [utf16 "9", utf16 "10", utf16 "MIT"] ∧
    (render (propsWith (some indexedLicenses))).map VNode.anchorTitles
      ≠ .ok (indexedLicenses.map Prod.fst) ∧
    Object.keys protoLicenses = [utf16 "MIT", utf16 "__proto__", utf16 "Z"] ∧
    (Cacheable.props sampleHelper protoConfig indexPage).map
        (fun props => props.licenses.map Object.keys)
      = .ok (some [utf16 "MIT", utf16 "Z"]) := by
  refine ⟨by rfl, by rfl, ?_, by rfl, by rfl⟩
  intro h
  have h2 : (Except.ok [utf16 "9", utf16 "10", utf16 "MIT"] : Except BuiltinError _)
      = .ok (indexedLicenses.map Prod.fst) := h
  have h3 := Except.ok.inj h2
  revert h3
  decide

/-- C4 (amended). `render` emits one anchor per key of `licenses` and the anchor titles are
`Object.keys(licenses)`: the names that are array indices in ascending numeric order, then the
other names in creation order; this is the creation order when no name is an array index. The
mapper builds a `licenses` whose `Object.keys` are those of `config.article.licenses` without
`__proto__`, in the same order: the same keys in the same order when no license is named
`__proto__`. -/
theorem render_anchor_order {ε Date : Type} (props : RenderProps)
    (licenses : JSObject LicenseEntry) (helper : Helper ε Date) (config : Config)
    (page : Page Date) (mapped : RenderProps) (article : Article)
    (configured : JSObject LicenseConfig)
    (hl : props.licenses = some licenses)
    (hc : config.article = some article) (hcl : article.licenses = some configured)
    (hnd : (configured.map Prod.fst).Nodup)
    (hok : Cacheable.props helper config page = .ok mapped) :
    (∃ t, render props = .ok t ∧
      (licenseAnchors t).length = licenses.length ∧
      List.Forall₂ (fun name a => licenseAnchor licenses name = .ok a ∧
        a.attr "title" = some name) (Object.keys licenses) (licenseAnchors t) ∧
      t.anchorTitles = Object.keys licenses ∧
      t.anchorTitles =
        ((licenses.map Prod.fst).filter isArrayIndex).insertionSort
            (fun a b => digitsValue a ≤ digitsValue b)
          ++ (licenses.map Prod.fst).filter (fun k => !isArrayIndex k) ∧
      ((∀ k ∈ licenses.map Prod.fst, isArrayIndex k = false) →
        t.anchorTitles = licenses.map Prod.fst)) ∧
    ∃ links, mapped.licenses = some links ∧
      links.map Prod.fst
        = (Object.keys configured).filter (fun k => k != utf16 "__proto__") ∧
      Object.keys links
        = (Object.keys configured).filter (fun k => k != utf16 "__proto__") ∧
      (utf16 "__proto__" ∉ configured.map Prod.fst →
        Object.keys links = Object.keys configured) := by
  constructor
  · obtain ⟨t, h1, h2, h3, _⟩ := render_of_licenses props licenses hl
    refine ⟨t, h1, ?_, ?_, h2, h2, ?_⟩
    · rw [← h3.length_eq, keys_length]
    · refine h3.imp ?_
      intro name a ha
      refine ⟨ha, ?_⟩
      unfold licenseAnchor at ha
      cases hg : licenses.get name with
      | none => simp [hg] at ha
      | some entry =>
        simp only [hg, Except.ok.injEq] at ha
        subst ha
        rfl
    · intro hno
      rw [h2]
      exact keys_eq_creation_order licenses hno
  · obtain ⟨links, link, aT, cA, cT, uA, uT, lT, h1, _, _, _, _, _, _, _, rfl⟩ :=
      (Cacheable.props_eq_ok helper config page mapped).mp hok
    rw [Cacheable.links_of_some helper config article configured hc hcl] at h1
    have hn := Cacheable.foldlM_addLink_names helper configured (Object.keys configured) []
      links h1 (keys_nodup configured hnd) (by simp)
    have hn2 : links.map Prod.fst
        = (Object.keys configured).filter (fun k => k != utf16 "__proto__") := by
      simpa using hn
    have hidx : ∀ k, isArrayIndex k = true → (k != utf16 "__proto__") = true := by
      intro k hk
      rw [bne_iff_ne]
      rintro rfl
      rw [isArrayIndex_proto] at hk
      cases hk
    have hkeys := keys_of_map_fst_eq_filter configured links _ hidx hn2
    refine ⟨links, rfl, hn2, hkeys, ?_⟩
    intro hnp
    rw [hkeys, List.filter_eq_self]
    intro k hk
    rw [bne_iff_ne]
    rintro rfl
    exact hnp ((mem_keys configured _).mp hk)

/-- The licenses `MIT`, `10`, `9` are rendered in the order `9`, `10`, `MIT`, and the two
licenses of `sampleConfig` keep their order. -/
theorem render_anchor_order_witness :
    (∃ t, render (propsWith (some indexedLicenses)) = .ok t ∧
      (licenseAnchors t).length = indexedLicenses.length ∧
      List.Forall₂ (fun name a => licenseAnchor indexedLicenses name = .ok a ∧
        a.attr "title" = some name) (Object.keys indexedLicenses) (licenseAnchors t) ∧
      t.anchorTitles = Object.keys indexedLicenses ∧
      t.anchorTitles =
        ((indexedLicenses.map Prod.fst).filter isArrayIndex).insertionSort
            (fun a b => digitsValue a ≤ digitsValue b)
          ++ (indexedLicenses.map Prod.fst).filter (fun k => !isArrayIndex k) ∧
      ((∀ k ∈ indexedLicenses.map Prod.fst, isArrayIndex k = false) →
        t.anchorTitles = indexedLicenses.map Prod.fst)) ∧
    ∃ links, (sampleProps (utf16 "https://x/post/") (some (utf16 "day 1")) none).licenses
        = some links ∧
      links.map Prod.fst
        = (Object.keys sampleLicenses).filter (fun k => k != utf16 "__proto__") ∧
      Object.keys links
        = (Object.keys sampleLicenses).filter (fun k => k != utf16 "__proto__") ∧
      (utf16 "__proto__" ∉ sampleLicenses.map Prod.fst →
        Object.keys links = Object.keys sampleLicenses) :=
  render_anchor_order (propsWith (some indexedLicenses)) indexedLicenses sampleHelper
    sampleConfig indexPage (sampleProps (utf16 "https://x/post/") (some (utf16 "day 1")) none)
    { licenses := some sampleLicenses } sampleLicenses rfl rfl rfl (by decide) (by rfl)

/-- C5. Without licenses (`licenses` absent or empty) `render` leaves the licenses item out:
the fourth place of the meta row is `null`, the block has no license anchor and the meta row
holds the author, created and updated items only; with at least one license the item is
rendered, with the `licensedTitle` heading and one anchor per license. For a configuration
without `article.licenses` the mapper gives the empty `licenses`, which renders no licenses
item. -/
theorem render_without_licenses {ε Date : Type} (props : RenderProps)
    (helper : Helper ε Date) (config : Config) (page : Page Date) (mapped : RenderProps)
    (hcfg : config.article = none ∨
      ∃ article, config.article = some article ∧ article.licenses = none)
    (hok : Cacheable.props helper config page = .ok mapped) :
    (∃ t, render props = .ok t ∧
      ((props.licenses = none ∨ props.licenses = some []) →
        metaItem t 3 = .null ∧ licenseAnchors t = [] ∧ t.anchorTitles = [] ∧
        ((t.childAt 1).childAt 0).content.length =
          (if truthy? props.author then 1 else 0) + (if truthy? props.createdAt then 1 else 0)
            + (if truthy? props.updatedAt then 1 else 0)) ∧
      (∀ licenses, props.licenses = some licenses → licenses ≠ [] →
        (licenseAnchors t).length = licenses.length ∧
        metaItem t 3 =
          .elem "div" [("class", utf16 "level-item is-narrow")]
            [.elem "div" []
              [.elem "h6" [] [.ofValue props.licensedTitle],
               .elem "p" [] [.arr (licenseAnchors t)]]])) ∧
    mapped.licenses = some [] ∧
    ∃ t, render mapped = .ok t ∧ metaItem t 3 = .null ∧ licenseAnchors t = [] ∧
      t.anchorTitles = [] ∧
      ((t.childAt 1).childAt 0).content.length =
        (if truthy? mapped.author then 1 else 0) + (if truthy? mapped.createdAt then 1 else 0)
          + (if truthy? mapped.updatedAt then 1 else 0) := by
  have none_case : ∀ p : RenderProps, (p.licenses = none ∨ p.licenses = some []) →
      ∀ t, render p = .ok t →
        metaItem t 3 = .null ∧ licenseAnchors t = [] ∧ t.anchorTitles = [] ∧
        ((t.childAt 1).childAt 0).content.length =
          (if truthy? p.author then 1 else 0) + (if truthy? p.createdAt then 1 else 0)
            + (if truthy? p.updatedAt then 1 else 0) := by
    intro p hp t ht
    obtain ⟨t2, licensing, h1, h2, h3, _, _, h4⟩ := render_items p
    rw [ht] at h1
    cases h1
    have hnull : licensing = .null := by
      rcases hp with hp | hp
      · rw [hp] at h2
        exact (Except.ok.inj h2).symm
      · rw [hp] at h2
        exact (Except.ok.inj h2).symm
    subst hnull
    refine ⟨h3, ?_, ?_, ?_⟩
    · unfold licenseAnchors
      rw [h3]
      rfl
    · rw [h4]
      rfl
    · obtain ⟨l2, hl1, hl2⟩ := render_eq p
      rw [h2] at hl1
      have hl3 := Except.ok.inj hl1
      subst hl3
      rw [ht] at hl2
      have hl4 := Except.ok.inj hl2
      subst hl4
      by_cases ha : truthy? p.author = true <;> by_cases hc : truthy? p.createdAt = true <;>
        by_cases hu : truthy? p.updatedAt = true <;>
        simp [VNode.content, VNode.children, VNode.childAt, VNode.flattenList, VNode.flatten,
          ha, hc, hu]
  refine ⟨?_, ?_⟩
  · obtain ⟨t, licensing, h1, _⟩ := render_items props
    refine ⟨t, h1, fun hp => none_case props hp t h1, ?_⟩
    intro licenses hl hne
    obtain ⟨t2, h1b, _, h3, h4⟩ := render_of_licenses props licenses hl
    rw [h1] at h1b
    cases h1b
    exact ⟨by rw [← h3.length_eq, keys_length], h4 hne⟩
  · obtain ⟨links, link, aT, cA, cT, uA, uT, lT, h1, _, _, _, _, _, _, _, rfl⟩ :=
      (Cacheable.props_eq_ok helper config page mapped).mp hok
    rw [Cacheable.links_of_none helper config hcfg] at h1
    cases h1
    refine ⟨rfl, ?_⟩
    obtain ⟨t, licensing, h1, _⟩ := render_items
      { title := page.title, link := link, author := orElse page.author config.author,
        authorTitle := some aT, createdAt := cA, createdTitle := some cT, updatedAt := uA,
        updatedTitle := some uT, licenses := some [], licensedTitle := some lT }
    exact ⟨t, h1, none_case _ (Or.inr rfl) t h1⟩

/-- Props without licenses and the mapper on a configuration without `article`. -/
theorem render_without_licenses_witness :
    (∃ t, render (propsWith none) = .ok t ∧
      (((propsWith none).licenses = none ∨ (propsWith none).licenses = some []) →
        metaItem t 3 = .null ∧ licenseAnchors t = [] ∧ t.anchorTitles = [] ∧
        ((t.childAt 1).childAt 0).content.length =
          (if truthy? (propsWith none).author then 1 else 0)
            + (if truthy? (propsWith none).createdAt then 1 else 0)
            + (if truthy? (propsWith none).updatedAt then 1 else 0)) ∧
      (∀ licenses, (propsWith none).licenses = some licenses → licenses ≠ [] →
        (licenseAnchors t).length = licenses.length ∧
        metaItem t 3 =
          .elem "div" [("class", utf16 "level-item is-narrow")]
            [.elem "div" []
              [.elem "h6" [] [.ofValue (propsWith none).licensedTitle],
               .elem "p" [] [.arr (licenseAnchors t)]]])) ∧
    bareProps.licenses = some [] ∧
    ∃ t, render bareProps = .ok t ∧
      metaItem t 3 = .null ∧ licenseAnchors t = [] ∧ t.anchorTitles = [] ∧
      ((t.childAt 1).childAt 0).content.length =
        (if truthy? bareProps.author then 1 else 0)
          + (if truthy? bareProps.createdAt then 1 else 0)
          + (if truthy? bareProps.updatedAt then 1 else 0) :=
  render_without_licenses (propsWith none) sampleHelper bareConfig indexPage bareProps
    (Or.inl rfl) (by rfl)

/-! ## One license anchor -/

theorem forall₂_exists_of_mem {α β : Type} (R : α → β → Prop) (l1 : List α) (l2 : List β)
    (h : List.Forall₂ R l1 l2) (x : α) (hx : x ∈ l1) : ∃ y ∈ l2, R x y := by
  induction h with
  | nil => cases hx
  | @cons a b l1 l2 hab _ ih =>
    rcases List.mem_cons.mp hx with rfl | hx
    · exact ⟨b, by simp, hab⟩
    · obtain ⟨y, hy, hr⟩ := ih hx
      exact ⟨y, by simp [hy], hr⟩

theorem text_or_empty (t : Option JSString) :
    (if truthy? t then t.getD [] else utf16 "") = t.getD (utf16 "") := by
  cases t with
  | none => rfl
  | some s =>
    cases s with
    | nil => rfl
    | cons c s => rfl

/-- The anchor of a license of the props is one of the license anchors of the rendered
block. -/
theorem licenseAnchor_mem_render (props : RenderProps) (licenses : JSObject LicenseEntry)
    (name : JSString) (entry : LicenseEntry)
    (hl : props.licenses = some licenses) (hg : licenses.get name = some entry) :
    ∃ t a, render props = .ok t ∧ a ∈ licenseAnchors t ∧
      licenseAnchor licenses name = .ok a := by
  obtain ⟨t, h1, _, h3, _⟩ := render_of_licenses props licenses hl
  obtain ⟨a, ha, hr⟩ := forall₂_exists_of_mem _ _ _ h3 name (mem_keys_of_get licenses name _ hg)
  exact ⟨t, a, h1, ha, hr⟩

theorem flattenList_glyphs (classes : List JSString) (rest : List VNode) :
    VNode.flattenList
      (VNode.arr (classes.map fun i =>
        VNode.arr [.elem "i" [("className", i)] [], .text [0xA0]]) :: rest)
    = (classes.map fun c => [VNode.elem "i" [("className", c)] [], VNode.text [0xA0]]).flatten
        ++ VNode.flattenList rest := by
  have key : ∀ cs : List JSString, VNode.flattenList
      (cs.map fun i => VNode.arr [.elem "i" [("className", i)] [], .text [0xA0]])
      = (cs.map fun c => [VNode.elem "i" [("className", c)] [], VNode.text [0xA0]]).flatten := by
    intro cs
    induction cs with
    | nil => rfl
    | cons c cs ih => simp [VNode.flattenList, VNode.flatten, ih]
  simp [VNode.flattenList, VNode.flatten, key]

/-- C6. For a license whose icon is a sequence of classes `[c1, ..., cn]` (also the empty
one), the rendered anchor has the empty class (not `icon`) and its content is, in the order of
the sequence, a glyph node `i` of class `ci` followed by a non-breaking space for each `ci`,
then `entry.text` (or the empty string). -/
theorem licenseAnchor_icon_sequence (props : RenderProps) (licenses : JSObject LicenseEntry)
    (name : JSString) (entry : LicenseEntry) (classes : List JSString)
    (hl : props.licenses = some licenses) (hg : licenses.get name = some entry)
    (hi : entry.icon = some (.many classes)) :
    ∃ t a, render props = .ok t ∧ a ∈ licenseAnchors t ∧
      licenseAnchor licenses name = .ok a ∧
      a.attr "title" = some name ∧
      a.attr "class" = some (utf16 "") ∧ a.attr "class" ≠ some (utf16 "icon") ∧
      a.content =
        (classes.map fun c =>
          [VNode.elem "i" [("className", c)] [], VNode.text [0xA0]]).flatten
          ++ [VNode.text (entry.text.getD (utf16 ""))] := by
  obtain ⟨t, a, h1, h2, h3⟩ := licenseAnchor_mem_render props licenses name entry hl hg
  refine ⟨t, a, h1, h2, h3, ?_⟩
  rw [licenseAnchor_of_get licenses name entry hg] at h3
  have h4 := Except.ok.inj h3
  subst h4
  rw [hi]
  have hne : utf16 "icon" ≠ utf16 "" := by decide
  refine ⟨rfl, rfl, ?_, ?_⟩
  · intro h
    have h5 : some (utf16 "") = some (utf16 "icon") := h
    exact absurd (Option.some.inj h5).symm hne
  simp only [VNode.content, VNode.children]
  rw [flattenList_glyphs, text_or_empty]
  rfl

/-- The icon `["a", "b"]` gives two glyph nodes, each followed by a non-breaking space. -/
theorem licenseAnchor_icon_sequence_witness :
    ∃ t a, render (propsWith (some iconSequenceLicenses)) = .ok t ∧ a ∈ licenseAnchors t ∧
      licenseAnchor iconSequenceLicenses (utf16 "CC") = .ok a ∧
      a.attr "title" = some (utf16 "CC") ∧
      a.attr "class" = some (utf16 "") ∧ a.attr "class" ≠ some (utf16 "icon") ∧
      a.content =
        ([utf16 "a", utf16 "b"].map fun c =>
          [VNode.elem "i" [("className", c)] [], VNode.text [0xA0]]).flatten
          ++ [VNode.text ((some (utf16 "BY")).getD (utf16 ""))] :=
  licenseAnchor_icon_sequence (propsWith (some iconSequenceLicenses)) iconSequenceLicenses
    (utf16 "CC")
    { url := utf16 "/cc", icon := some (.many [utf16 "a", utf16 "b"]), text := some (utf16 "BY") }
    [utf16 "a", utf16 "b"] rfl (by rfl) rfl

/-- C7 (fails as stated). A license whose icon is the empty string has an icon that is present
and is not a sequence, yet its anchor has the empty class and shows the license name instead of
a glyph node. -/
theorem licenseAnchor_class_counterexample :
    emptyIconLicenses.get (utf16 "MIT")
      = some { url := utf16 "/mit", icon := some (.single (utf16 "")), text := none } ∧
    (licenseAnchor emptyIconLicenses (utf16 "MIT")).map (fun a => a.attr "class")
      = .ok (some (utf16 "")) ∧
    (licenseAnchor emptyIconLicenses (utf16 "MIT")).map (fun a => a.attr "class")
      ≠ .ok (some (utf16 "icon")) ∧
    (licenseAnchor emptyIconLicenses (utf16 "MIT")).map VNode.content
      = .ok [.text (utf16 "MIT"), .text (utf16 "")] := by
  refine ⟨by rfl, by rfl, ?_, by rfl⟩
  intro h
  have h2 : (Except.ok (some (utf16 "")) : Except BuiltinError (Option JSString))
      = .ok (some (utf16 "icon")) := h
  have h3 := Except.ok.inj h2
  revert h3
  decide

/-- C7 (amended). The class of a rendered anchor is `icon` exactly when `entry.icon` is a
non-empty string, and is empty otherwise; for such an icon the content of the anchor is one
glyph node `i` whose class is that string, followed only by `entry.text` (or the empty
string). An icon that is the empty string is treated as an absent one. -/
theorem licenseAnchor_class (props : RenderProps) (licenses : JSObject LicenseEntry)
    (name : JSString) (entry : LicenseEntry)
    (hl : props.licenses = some licenses) (hg : licenses.get name = some entry) :
    ∃ t a, render props = .ok t ∧ a ∈ licenseAnchors t ∧
      licenseAnchor licenses name = .ok a ∧
      (a.attr "class" = some (utf16 "icon") ↔
        ∃ cls, entry.icon = some (.single cls) ∧ cls ≠ utf16 "") ∧
      ((¬ ∃ cls, entry.icon = some (.single cls) ∧ cls ≠ utf16 "") →
        a.attr "class" = some (utf16 "")) ∧
      (∀ cls, entry.icon = some (.single cls) → cls ≠ utf16 "" →
        a.content = [VNode.elem "i" [("className", cls)] [],
          VNode.text (entry.text.getD (utf16 ""))]) ∧
      (entry.icon = some (.single (utf16 "")) →
        a.content = [VNode.text name, VNode.text (entry.text.getD (utf16 ""))]) := by
  obtain ⟨t, a, h1, h2, h3⟩ := licenseAnchor_mem_render props licenses name entry hl hg
  refine ⟨t, a, h1, h2, h3, ?_⟩
  rw [licenseAnchor_of_get licenses name entry hg] at h3
  have h4 := Except.ok.inj h3
  subst h4
  have hne : utf16 "icon" ≠ utf16 "" := by decide
  rcases hi : entry.icon with _ | ⟨cls⟩ | ⟨classes⟩
  · refine ⟨?_, fun _ => rfl, ?_, ?_⟩
    · constructor
      · intro h
        have h5 : some (utf16 "") = some (utf16 "icon") := h
        exact absurd (Option.some.inj h5).symm hne
      · rintro ⟨cls, hc, _⟩
        cases hc
    · intro cls hc
      cases hc
    · intro hc
      cases hc
  · cases cls with
    | nil =>
      refine ⟨?_, fun _ => rfl, ?_, ?_⟩
      · constructor
        · intro h
          have h5 : some (utf16 "") = some (utf16 "icon") := h
          exact absurd (Option.some.inj h5).symm hne
        · rintro ⟨cls, hc, hcne⟩
          cases hc
          exact absurd rfl hcne
      · intro cls hc hcne
        cases hc
        exact absurd rfl hcne
      · intro _
        simp only [VNode.content, VNode.children, text_or_empty]
        rfl
    | cons c cs =>
      refine ⟨?_, ?_, ?_, ?_⟩
      · constructor
        · intro _
          exact ⟨c :: cs, rfl, by
            intro h
            have : (c :: cs) = [] := h
            cases this⟩
        · intro _
          rfl
      · intro h
        exact absurd ⟨c :: cs, rfl, by
          intro h
          have : (c :: cs) = [] := h
          cases this⟩ h
      · intro cls hc _
        cases hc
        simp only [VNode.content, VNode.children, text_or_empty]
        rfl
      · intro hc
        have : (c :: cs) = [] := Icon.single.inj (Option.some.inj hc)
        cases this
  · refine ⟨?_, fun _ => rfl, ?_, ?_⟩
    · constructor
      · intro h
        have h5 : some (utf16 "") = some (utf16 "icon") := h
        exact absurd (Option.some.inj h5).symm hne
      · rintro ⟨cls, hc, _⟩
        cases hc
    · intro cls hc
      cases hc
    · intro hc
      cases hc

/-- The icon `fab fa-x` gives the class `icon` and one glyph node. -/
theorem licenseAnchor_class_witness :
    ∃ t a, render (sampleProps (utf16 "https://x/post/") none none) = .ok t ∧
      a ∈ licenseAnchors t ∧
      licenseAnchor sampleLinks (utf16 "Attribution 4.0 International") = .ok a ∧
      (a.attr "class" = some (utf16 "icon") ↔
        ∃ cls, (some (Icon.single (utf16 "fab fa-x"))) = some (.single cls) ∧ cls ≠ utf16 "") ∧
      ((¬ ∃ cls, (some (Icon.single (utf16 "fab fa-x"))) = some (.single cls) ∧ cls ≠ utf16 "") →
        a.attr "class" = some (utf16 "")) ∧
      (∀ cls, (some (Icon.single (utf16 "fab fa-x"))) = some (.single cls) → cls ≠ utf16 "" →
        a.content = [VNode.elem "i" [("className", cls)] [],
          VNode.text ((none : Option JSString).getD (utf16 ""))]) ∧
      ((some (Icon.single (utf16 "fab fa-x"))) = some (.single (utf16 "")) →
        a.content = [VNode.text (utf16 "Attribution 4.0 International"),
          VNode.text ((none : Option JSString).getD (utf16 ""))]) :=
  licenseAnchor_class (sampleProps (utf16 "https://x/post/") none none) sampleLinks
    (utf16 "Attribution 4.0 International")
    { url := utf16 "/blog/by", icon := some (.single (utf16 "fab fa-x")), text := none }
    rfl (by rfl)

/-- C8. For a license without icon, the content of the rendered anchor is the license name
(the string of its `title` attribute) followed by `entry.text` (or the empty string), and the
anchor has `href = entry.url`, `rel = "noopener"` and `target = "_blank"`. -/
theorem licenseAnchor_no_icon (props : RenderProps) (licenses : JSObject LicenseEntry)
    (name : JSString) (entry : LicenseEntry)
    (hl : props.licenses = some licenses) (hg : licenses.get name = some entry)
    (hi : entry.icon = none) :
    ∃ t a, render props = .ok t ∧ a ∈ licenseAnchors t ∧
      licenseAnchor licenses name = .ok a ∧
      a = .elem "a"
        [("rel", utf16 "noopener"), ("target", utf16 "_blank"), ("title", name),
         ("class", utf16 ""), ("href", entry.url)]
        [.text name, .text (entry.text.getD (utf16 ""))] ∧
      a.content = [VNode.text name, VNode.text (entry.text.getD (utf16 ""))] ∧
      a.attr "title" = some name ∧ a.attr "href" = some entry.url ∧
      a.attr "rel" = some (utf16 "noopener") ∧ a.attr "target" = some (utf16 "_blank") := by
  obtain ⟨t, a, h1, h2, h3⟩ := licenseAnchor_mem_render props licenses name entry hl hg
  refine ⟨t, a, h1, h2, h3, ?_⟩
  rw [licenseAnchor_of_get licenses name entry hg] at h3
  have h4 := Except.ok.inj h3
  subst h4
  rw [hi]
  simp only [text_or_empty]
  exact ⟨rfl, rfl, rfl, rfl, rfl, rfl⟩

/-- The license `Creative Commons` of `sampleProps` has no icon: its anchor shows its name. -/
theorem licenseAnchor_no_icon_witness :
    ∃ t a, render (sampleProps (utf16 "https://x/post/") none none) = .ok t ∧
      a ∈ licenseAnchors t ∧
      licenseAnchor sampleLinks (utf16 "Creative Commons") = .ok a ∧
      a = .elem "a"
        [("rel", utf16 "noopener"), ("target", utf16 "_blank"),
         ("title", utf16 "Creative Commons"), ("class", utf16 ""), ("href", utf16 "/blog/cc")]
        [.text (utf16 "Creative Commons"), .text ((none : Option JSString).getD (utf16 ""))] ∧
      a.content = [VNode.text (utf16 "Creative Commons"),
        VNode.text ((none : Option JSString).getD (utf16 ""))] ∧
      a.attr "title" = some (utf16 "Creative Commons") ∧
      a.attr "href" = some (utf16 "/blog/cc") ∧
      a.attr "rel" = some (utf16 "noopener") ∧ a.attr "target" = some (utf16 "_blank") :=
  licenseAnchor_no_icon (sampleProps (utf16 "https://x/post/") none none) sampleLinks
    (utf16 "Creative Commons") { url := utf16 "/blog/cc", icon := none, text := none }
    rfl (by rfl) rfl

/-! ## Dates -/

/-- C9 (fails as stated). A page whose date is the number `0` and whose update date is the
empty string has both dates present, yet the props the mapper returns have neither `createdAt`
nor `updatedAt`. -/
theorem Cacheable.dates_of_page_counterexample :
    falsyDatePage.date = some (.number 0) ∧ falsyDatePage.date ≠ none ∧
    falsyDatePage.updated = some (.string (utf16 "")) ∧ falsyDatePage.updated ≠ none ∧
    Cacheable.props sampleHelper sampleConfig falsyDatePage
      = .ok (sampleProps (utf16 "https://x/post/") none none) ∧
    (sampleProps (utf16 "https://x/post/") none none).createdAt = none ∧
    (sampleProps (utf16 "https://x/post/") none none).updatedAt = none :=
  ⟨rfl, by simp [falsyDatePage], rfl, by simp [falsyDatePage], by rfl, rfl, rfl⟩

/-- C9 (amended). In the props the mapper returns, `createdAt` is absent exactly when
`page.date` is falsy, that is absent or a falsy value such as `0`, the empty string, `NaN` or
`false` (then `helper.date` plays no part: any other helper gives the same value), and
otherwise `createdAt` is `helper.date(page.date)`; the same holds for `updatedAt` and
`page.updated`. So the rendered block has a Created (Updated) item only when `page.date`
(`page.updated`) is present and truthy. -/
theorem Cacheable.dates_of_page {ε Date : Type} (helper : Helper ε Date) (config : Config)
    (page : Page Date) (props : RenderProps)
    (hok : Cacheable.props helper config page = .ok props) :
    (props.createdAt = none ↔ DateValue.truthy? page.date = false) ∧
    (page.date = none → props.createdAt = none) ∧
    (∀ d, page.date = some d → d.truthy = true →
      ∃ s, helper.date d = .ok s ∧ props.createdAt = some s) ∧
    (DateValue.truthy? page.date = false →
      ∀ other : Helper ε Date, Cacheable.dateOrNull other page.date = .ok none) ∧
    (props.updatedAt = none ↔ DateValue.truthy? page.updated = false) ∧
    (page.updated = none → props.updatedAt = none) ∧
    (∀ d, page.updated = some d → d.truthy = true →
      ∃ s, helper.date d = .ok s ∧ props.updatedAt = some s) ∧
    (DateValue.truthy? page.updated = false →
      ∀ other : Helper ε Date, Cacheable.dateOrNull other page.updated = .ok none) ∧
    (DateValue.truthy? page.date = false → DateValue.truthy? page.updated = false →
      ∀ date : DateValue Date → Except ε JSString,
        Cacheable.props ⟨helper.url_for, date, helper.__⟩ config page = .ok props) ∧
    ∃ t, render props = .ok t ∧
      (metaItem t 1 ≠ .null → DateValue.truthy? page.date = true ∧ page.date ≠ none) ∧
      (metaItem t 2 ≠ .null → DateValue.truthy? page.updated = true ∧ page.updated ≠ none) := by
  obtain ⟨links, link, aT, cA, cT, uA, uT, lT, h1, h2, h3, h4, h5, h6, h7, h8, rfl⟩ :=
    (Cacheable.props_eq_ok helper config page props).mp hok
  have iff_of : ∀ (d : Option (DateValue Date)) (r : Option JSString),
      Cacheable.dateOrNull helper d = .ok r → (r = none ↔ DateValue.truthy? d = false) := by
    intro d r hr
    rcases (Cacheable.dateOrNull_eq_ok helper d r).mp hr with ⟨hd, hr2⟩ | ⟨v, s, hd, ht, _, hr2⟩
    · simp [hd, hr2]
    · subst hd
      subst hr2
      simp [DateValue.truthy?, ht]
  have some_of : ∀ (d : Option (DateValue Date)) (r : Option JSString),
      Cacheable.dateOrNull helper d = .ok r → ∀ v, d = some v → v.truthy = true →
      ∃ s, helper.date v = .ok s ∧ r = some s := by
    intro d r hr v hv ht
    rcases (Cacheable.dateOrNull_eq_ok helper d r).mp hr with ⟨hd, _⟩ | ⟨v2, s, hd, _, hs, hr⟩
    · subst hv
      rw [DateValue.truthy?, ht] at hd
      cases hd
    · rw [hv] at hd
      cases hd
      exact ⟨s, hs, hr⟩
  have other_of : ∀ (d : Option (DateValue Date)), DateValue.truthy? d = false →
      ∀ other : Helper ε Date, Cacheable.dateOrNull other d = .ok none := by
    intro d hd other
    exact (Cacheable.dateOrNull_eq_ok other d none).mpr (Or.inl ⟨hd, rfl⟩)
  have hcIff := iff_of page.date cA h4
  have huIff := iff_of page.updated uA h6
  have truthy_ne : ∀ d : Option (DateValue Date), DateValue.truthy? d = true → d ≠ none := by
    intro d hd hn
    subst hn
    cases hd
  refine ⟨hcIff, ?_, some_of page.date cA h4, other_of page.date, huIff, ?_,
    some_of page.updated uA h6, other_of page.updated, ?_, ?_⟩
  · intro hd
    apply hcIff.mpr
    rw [hd]
    rfl
  · intro hd
    apply huIff.mpr
    rw [hd]
    rfl
  · intro hd hup date
    rw [Cacheable.props_eq_ok]
    refine ⟨links, link, aT, cA, cT, uA, uT, lT, h1, h2, h3, ?_, h5, ?_, h7, h8, rfl⟩
    · have : cA = none := hcIff.mpr hd
      subst this
      exact (Cacheable.dateOrNull_eq_ok _ _ _).mpr (Or.inl ⟨hd, rfl⟩)
    · have : uA = none := huIff.mpr hup
      subst this
      exact (Cacheable.dateOrNull_eq_ok _ _ _).mpr (Or.inl ⟨hup, rfl⟩)
  · obtain ⟨t, licensing, hr, _, _, hm1, hm2, _⟩ := render_items
      { title := page.title, link := link, author := orElse page.author config.author,
        authorTitle := some aT, createdAt := cA, createdTitle := some cT, updatedAt := uA,
        updatedTitle := some uT, licenses := some links, licensedTitle := some lT }
    refine ⟨t, hr, ?_, ?_⟩
    · intro hne
      have ht : DateValue.truthy? page.date = true := by
        by_contra hd
        have hd2 : DateValue.truthy? page.date = false := by simpa using hd
        apply hne
        rw [hm1]
        have : cA = none := hcIff.mpr hd2
        subst this
        rfl
      exact ⟨ht, truthy_ne _ ht⟩
    · intro hne
      have ht : DateValue.truthy? page.updated = true := by
        by_contra hd
        have hd2 : DateValue.truthy? page.updated = false := by simpa using hd
        apply hne
        rw [hm2]
        have : uA = none := huIff.mpr hd2
        subst this
        rfl
      exact ⟨ht, truthy_ne _ ht⟩

/-- The page `indexPage` has a date object and no update date. -/
theorem Cacheable.dates_of_page_witness :
    ((sampleProps (utf16 "https://x/post/") (some (utf16 "day 1")) none).createdAt = none
      ↔ DateValue.truthy? indexPage.date = false) ∧
    (indexPage.date = none →
      (sampleProps (utf16 "https://x/post/") (some (utf16 "day 1")) none).createdAt = none) ∧
    (∀ d, indexPage.date = some d → d.truthy = true →
      ∃ s, sampleHelper.date d = .ok s ∧
        (sampleProps (utf16 "https://x/post/") (some (utf16 "day 1")) none).createdAt
          = some s) ∧
    (DateValue.truthy? indexPage.date = false →
      ∀ other : Helper Unit Nat, Cacheable.dateOrNull other indexPage.date = .ok none) ∧
    ((sampleProps (utf16 "https://x/post/") (some (utf16 "day 1")) none).updatedAt = none
      ↔ DateValue.truthy? indexPage.updated = false) ∧
    (indexPage.updated = none →
      (sampleProps (utf16 "https://x/post/") (some (utf16 "day 1")) none).updatedAt = none) ∧
    (∀ d, indexPage.updated = some d → d.truthy = true →
      ∃ s, sampleHelper.date d = .ok s ∧
        (sampleProps (utf16 "https://x/post/") (some (utf16 "day 1")) none).updatedAt
          = some s) ∧
    (DateValue.truthy? indexPage.updated = false →
      ∀ other : Helper Unit Nat, Cacheable.dateOrNull other indexPage.updated = .ok none) ∧
    (DateValue.truthy? indexPage.date = false → DateValue.truthy? indexPage.updated = false →
      ∀ date : DateValue Nat → Except Unit JSString,
        Cacheable.props ⟨sampleHelper.url_for, date, sampleHelper.__⟩ sampleConfig indexPage
          = .ok (sampleProps (utf16 "https://x/post/") (some (utf16 "day 1")) none)) ∧
    ∃ t, render (sampleProps (utf16 "https://x/post/") (some (utf16 "day 1")) none) = .ok t ∧
      (metaItem t 1 ≠ .null →
        DateValue.truthy? indexPage.date = true ∧ indexPage.date ≠ none) ∧
      (metaItem t 2 ≠ .null →
        DateValue.truthy? indexPage.updated = true ∧ indexPage.updated ≠ none) :=
  Cacheable.dates_of_page sampleHelper sampleConfig indexPage
    (sampleProps (utf16 "https://x/post/") (some (utf16 "day 1")) none) (by rfl)

/-! ## Exceptions of the mapper -/

theorem DecodeLoop_error (preserve : JSString) (s : JSString) :
    ∀ (skip : Nat) (b : BuiltinError), DecodeLoop preserve skip s = .error b → b = .URIError := by
  induction s with
  | nil =>
    intro skip b h
    cases skip <;> simp [DecodeLoop] at h
  | cons c rest ih =>
    intro skip b h
    cases skip with
    | succ n =>
      rw [DecodeLoop] at h
      exact ih n b h
    | zero =>
      rw [DecodeLoop] at h
      by_cases hc : c ≠ 37
      · rw [if_pos hc] at h
        cases hr : DecodeLoop preserve 0 rest with
        | error e =>
          rw [hr] at h
          simp only [Except.map, Except.error.injEq] at h
          subst h
          exact ih 0 e hr
        | ok v =>
          rw [hr] at h
          simp [Except.map] at h
      · rw [if_neg hc] at h
        cases hd : decodeEscape preserve (c :: rest) with
        | none =>
          rw [hd] at h
          simp only [Except.error.injEq] at h
          exact h.symm
        | some r =>
          obtain ⟨S, used⟩ := r
          rw [hd] at h
          simp only at h
          cases hr : DecodeLoop preserve (used - 1) rest with
          | error e =>
            rw [hr] at h
            simp only [Except.map, Except.error.injEq] at h
            subst h
            exact ih _ e hr
          | ok v =>
            rw [hr] at h
            simp [Except.map] at h

/-- A string without `%` is decoded to itself. -/
theorem decodeURI_of_no_percent (s : JSString) (h : 37 ∉ s) : decodeURI s = .ok s := by
  unfold decodeURI
  induction s with
  | nil => rfl
  | cons c rest ih =>
    have hc : c ≠ 37 := fun hc => h (by simp [hc])
    have hr : 37 ∉ rest := fun hr => h (by simp [hr])
    rw [DecodeLoop, if_pos hc, ih hr]
    rfl

theorem Cacheable.dateOrNull_eq_error {ε Date : Type} (helper : Helper ε Date)
    (d : Option (DateValue Date)) (t : Thrown ε)
    (h : Cacheable.dateOrNull helper d = .error t) :
    ∃ date e, d = some date ∧ helper.date date = .error e ∧ t = .helper e := by
  cases d with
  | none => simp [Cacheable.dateOrNull] at h
  | some date =>
    by_cases ht : date.truthy = true
    · have h2 : (call (helper.date date)).map some
          = (.error t : Except _ (Option JSString)) := by
        simpa [Cacheable.dateOrNull, ht] using h
      cases hr : helper.date date with
      | error e =>
        rw [hr] at h2
        simp only [call, Except.map, Except.error.injEq] at h2
        exact ⟨date, e, rfl, hr, h2.symm⟩
      | ok s =>
        rw [hr] at h2
        simp [call, Except.map] at h2
    · simp [Cacheable.dateOrNull, ht] at h

theorem Cacheable.links_eq_error {ε Date : Type} (helper : Helper ε Date) (config : Config)
    (t : Thrown ε) (h : Cacheable.links helper config = .error t) :
    ∃ path e, helper.url_for path = .error e ∧ t = .helper e := by
  unfold Cacheable.links at h
  cases hl : (config.article.getD { licenses := none }).licenses with
  | none => simp [hl] at h
  | some licenses =>
    simp only [hl] at h
    obtain ⟨name, license, e, _, hu, ht⟩ :=
      Cacheable.foldlM_addLink_error helper licenses (Object.keys licenses) (fun _ hk => hk)
        [] t h
    exact ⟨_, e, hu, ht⟩

theorem Cacheable.links_ok {ε Date : Type} (helper : Helper ε Date) (config : Config)
    (hu : ∀ path, ∃ r, helper.url_for path = .ok r) :
    ∃ links, Cacheable.links helper config = .ok links := by
  unfold Cacheable.links
  cases hl : (config.article.getD { licenses := none }).licenses with
  | none => exact ⟨[], rfl⟩
  | some licenses =>
    simp only
    apply Cacheable.foldlM_addLink_ok
    intro k hk
    obtain ⟨license, hg⟩ := get_isSome_of_mem_keys licenses k hk
    obtain ⟨url, hurl⟩ := hu license.urlArgument
    exact ⟨license, url, hg, hurl⟩

/-- What a failing run of the mapper threw: the exception of `decodeURI`, or what a helper
raised. -/
theorem Cacheable.props_eq_error {ε Date : Type} (helper : Helper ε Date) (config : Config)
    (page : Page Date) (t : Thrown ε) (h : Cacheable.props helper config page = .error t) :
    (decodeURI (toStringValue (Cacheable.permalink page)) = .error .URIError ∧
      t = .builtin .URIError) ∨
    ∃ e, t = .helper e ∧
      ((∃ path, helper.url_for path = .error e) ∨ (∃ d, helper.date d = .error e) ∨
        ∃ key, helper.__ key = .error e) := by
  unfold Cacheable.props at h
  have hcall : ∀ key, call (helper.__ key) = .error t →
      ∃ e, t = .helper e ∧
        ((∃ path, helper.url_for path = .error e) ∨ (∃ d, helper.date d = .error e) ∨
          ∃ key, helper.__ key = .error e) := by
    intro key hk
    obtain ⟨e, he, ht⟩ := (call_eq_error _ _).mp hk
    exact ⟨e, ht, Or.inr (Or.inr ⟨key, he⟩)⟩
  have hdate : ∀ d, Cacheable.dateOrNull helper d = .error t →
      ∃ e, t = .helper e ∧
        ((∃ path, helper.url_for path = .error e) ∨ (∃ d, helper.date d = .error e) ∨
          ∃ key, helper.__ key = .error e) := by
    intro d hd
    obtain ⟨date, e, _, he, ht⟩ := Cacheable.dateOrNull_eq_error helper d t hd
    exact ⟨e, ht, Or.inr (Or.inl ⟨date, he⟩)⟩
  rcases (bind_eq_error _ _ _).mp h with h | ⟨links, _, h⟩
  · obtain ⟨path, e, he, ht⟩ := Cacheable.links_eq_error helper config t h
    exact Or.inr ⟨e, ht, Or.inl ⟨path, he⟩⟩
  rcases (bind_eq_error _ _ _).mp h with h | ⟨link, _, h⟩
  · obtain ⟨b, hb, ht⟩ := (builtin_eq_error _ _).mp h
    have := DecodeLoop_error _ _ _ _ hb
    subst this
    exact Or.inl ⟨hb, ht⟩
  rcases (bind_eq_error _ _ _).mp h with h | ⟨aT, _, h⟩
  · exact Or.inr (hcall _ h)
  rcases (bind_eq_error _ _ _).mp h with h | ⟨cA, _, h⟩
  · exact Or.inr (hdate _ h)
  rcases (bind_eq_error _ _ _).mp h with h | ⟨cT, _, h⟩
  · exact Or.inr (hcall _ h)
  rcases (bind_eq_error _ _ _).mp h with h | ⟨uA, _, h⟩
  · exact Or.inr (hdate _ h)
  rcases (bind_eq_error _ _ _).mp h with h | ⟨uT, _, h⟩
  · exact Or.inr (hcall _ h)
  rcases (bind_eq_error _ _ _).mp h with h | ⟨lT, _, h⟩
  · exact Or.inr (hcall _ h)
  simp [pure, Except.pure] at h

theorem sampleHelper_neverRaises : sampleHelper.NeverRaises :=
  ⟨fun _ => ⟨_, rfl⟩,
    fun d => by
      cases d with
      | object n => exact ⟨_, rfl⟩
      | string s => exact ⟨_, rfl⟩
      | number n => exact ⟨_, rfl⟩
      | NaN => exact ⟨_, rfl⟩
      | boolean b => exact ⟨_, rfl⟩,
    fun _ => ⟨_, rfl⟩⟩

/-- C10 (fails as stated). With helpers that never raise and a configuration and page of the
shapes of the spec, the mapper throws on the permalink `https://x/100%`: the exception is the
`URIError` of `decodeURI`, not one of a helper. -/
theorem Cacheable.props_raises_counterexample :
    sampleHelper.NeverRaises ∧
    malformedPage.permalink = some (utf16 "https://x/100%") ∧
    decodeURI (utf16 "https://x/100%") = .error .URIError ∧
    Cacheable.props sampleHelper sampleConfig malformedPage = .error (.builtin .URIError) :=
  ⟨sampleHelper_neverRaises, rfl, by rfl, by rfl⟩

/-- C10 (amended). With helpers that never raise, the mapper returns props exactly when
`decodeURI` accepts the permalink (after the cut of `index.html`), which it does for every
permalink without `%`; when `decodeURI` rejects it the mapper throws that `URIError`. Every
other failure of the mapper is an exception a helper raised (`url_for`, `date` or `__`); the
mapper never throws a `TypeError`. -/
theorem Cacheable.props_failures {ε Date : Type} (helper : Helper ε Date) (config : Config)
    (page : Page Date) :
    (helper.NeverRaises →
      ((∃ props, Cacheable.props helper config page = .ok props) ↔
        ∃ link, decodeURI (toStringValue (Cacheable.permalink page)) = .ok link) ∧
      ((¬ ∃ link, decodeURI (toStringValue (Cacheable.permalink page)) = .ok link) →
        Cacheable.props helper config page = .error (.builtin .URIError))) ∧
    (37 ∉ toStringValue (Cacheable.permalink page) →
      decodeURI (toStringValue (Cacheable.permalink page))
        = .ok (toStringValue (Cacheable.permalink page))) ∧
    (∀ t, Cacheable.props helper config page = .error t →
      (decodeURI (toStringValue (Cacheable.permalink page)) = .error .URIError ∧
        t = .builtin .URIError) ∨
      ∃ e, t = .helper e ∧
        ((∃ path, helper.url_for path = .error e) ∨ (∃ d, helper.date d = .error e) ∨
          ∃ key, helper.__ key = .error e)) := by
  refine ⟨?_, decodeURI_of_no_percent _, Cacheable.props_eq_error helper config page⟩
  intro hn
  obtain ⟨hurl, hdate, htr⟩ := hn
  have hiff : (∃ props, Cacheable.props helper config page = .ok props) ↔
      ∃ link, decodeURI (toStringValue (Cacheable.permalink page)) = .ok link := by
    constructor
    · rintro ⟨props, hok⟩
      obtain ⟨links, link, aT, cA, cT, uA, uT, lT, _, h2, _⟩ :=
        (Cacheable.props_eq_ok helper config page props).mp hok
      exact ⟨link, h2⟩
    · rintro ⟨link, hlink⟩
      obtain ⟨links, hlinks⟩ := Cacheable.links_ok helper config hurl
      obtain ⟨aT, haT⟩ := htr (utf16 "article.licensing.author")
      obtain ⟨cT, hcT⟩ := htr (utf16 "article.licensing.created_at")
      obtain ⟨uT, huT⟩ := htr (utf16 "article.licensing.updated_at")
      obtain ⟨lT, hlT⟩ := htr (utf16 "article.licensing.licensed_under")
      have hd : ∀ d : Option (DateValue Date),
          ∃ r, Cacheable.dateOrNull helper d = .ok r := by
        intro d
        cases d with
        | none => exact ⟨none, rfl⟩
        | some date =>
          by_cases ht : date.truthy = true
          · obtain ⟨s, hs⟩ := hdate date
            exact ⟨some s, (Cacheable.dateOrNull_eq_ok helper _ _).mpr
              (Or.inr ⟨date, s, rfl, ht, hs, rfl⟩)⟩
          · have hf : date.truthy = false := by simpa using ht
            exact ⟨none, (Cacheable.dateOrNull_eq_ok helper _ _).mpr (Or.inl ⟨hf, rfl⟩)⟩
      obtain ⟨cA, hcA⟩ := hd page.date
      obtain ⟨uA, huA⟩ := hd page.updated
      exact ⟨_, (Cacheable.props_eq_ok helper config page _).mpr
        ⟨links, link, aT, cA, cT, uA, uT, lT, hlinks, hlink, haT, hcA, hcT, huA, huT, hlT, rfl⟩⟩
  refine ⟨hiff, ?_⟩
  intro hno
  cases hp : Cacheable.props helper config page with
  | ok props => exact absurd (hiff.mp ⟨props, hp⟩) hno
  | error t =>
    rcases Cacheable.props_eq_error helper config page t hp with ⟨_, ht⟩ | ⟨e, _, h⟩
    · rw [ht]
    · rcases h with ⟨path, he⟩ | ⟨d, he⟩ | ⟨key, he⟩
      · obtain ⟨r, hr⟩ := hurl path
        rw [hr] at he
        cases he
      · obtain ⟨r, hr⟩ := hdate d
        rw [hr] at he
        cases he
      · obtain ⟨r, hr⟩ := htr key
        rw [hr] at he
        cases he

/-- With `sampleHelper` the mapper returns props for `indexPage`, whose permalink has no
`%`. -/
theorem Cacheable.props_failures_witness :
    (∃ props, Cacheable.props sampleHelper sampleConfig indexPage = .ok props) ∧
    decodeURI (toStringValue (Cacheable.permalink indexPage))
      = .ok (toStringValue (Cacheable.permalink indexPage)) :=
  ⟨((Cacheable.props_failures sampleHelper sampleConfig indexPage).1
      sampleHelper_neverRaises).1.mpr ⟨_, by rfl⟩,
    (Cacheable.props_failures sampleHelper sampleConfig indexPage).2.1 (by decide)⟩

end ArticleLicensing
